import Mathlib

/-!
Verification of the JEEFS EEPROM file system (jeefs.c, jeefs_header.c)
against its natural-language specification.

The embedding is byte-level: an EEPROM image is a `List Nat` of bytes
(each < 256 in well-formed images).  The backend semantics follow the
in-memory reference backend (eepromops-memory.c): a read or write of
`count` bytes at `offset` succeeds iff `offset + count ≤ size`, reads
copy bytes out, writes replace bytes in place.  Fallible operations
return `Option`; `none` marks executions whose C behaviour is not
defined (reads into uninitialized stack memory, out-of-bounds VLA
accesses, or non-terminating walks on corrupted link chains).
-/

set_option maxRecDepth 100000

namespace Jeefs

/-! ### Byte-buffer primitives -/

/-- Byte at index `i` of a buffer (0 when out of range; call sites stay in range). -/
def byteAt (l : List Nat) (i : Nat) : Nat := l.getD i 0

/-- The `n` bytes starting at `off`. -/
def readBytes (l : List Nat) (off n : Nat) : List Nat := (l.drop off).take n

/-- Replace the bytes starting at `off` by `bs`. -/
def writeBytes (l : List Nat) (off : Nat) (bs : List Nat) : List Nat :=
  l.take off ++ bs ++ l.drop (off + bs.length)

/-- `eeprom_read` of the in-memory backend: fails iff `offset + count > size`. -/
def eeprom_read (img : List Nat) (count off : Nat) : Option (List Nat) :=
  if off + count > img.length then none else some (readBytes img off count)

/-- `eeprom_write` of the in-memory backend: fails iff `offset + count > size`. -/
def eeprom_write (img bs : List Nat) (off : Nat) : Option (List Nat) :=
  if off + bs.length > img.length then none else some (writeBytes img off bs)

/-- Little-endian 16-bit serialization (uint16_t field of a packed struct). -/
def le16 (x : Nat) : List Nat := [x % 256, x / 256 % 256]

/-- Little-endian 32-bit serialization (uint32_t field of a packed struct). -/
def le32 (x : Nat) : List Nat :=
  [x % 256, x / 256 % 256, x / 65536 % 256, x / 16777216 % 256]

/-- Little-endian 16-bit read. -/
def rd16 (bs : List Nat) : Nat := byteAt bs 0 + 256 * byteAt bs 1

/-- Little-endian 32-bit read. -/
def rd32 (bs : List Nat) : Nat :=
  byteAt bs 0 + 256 * byteAt bs 1 + 65536 * byteAt bs 2 + 16777216 * byteAt bs 3

/-- C conversion of an `int` value to `uint16_t` (reduction modulo 2^16). -/
def intToU16 (i : Int) : Nat := (i % 65536).toNat

/-- Two's-complement conversion of an unsigned value to `int16_t`
(the gcc behaviour of the implementation-defined C conversion). -/
def toInt16 (n : Nat) : Int :=
  if n % 65536 < 32768 then ((n % 65536 : Nat) : Int) else ((n % 65536 : Nat) : Int) - 65536

/-- C `strncmp` on byte lists; a list models a NUL-terminated region, reading
past the end yields the terminator 0.  The C implementation compares `char`s
(possibly signed), which changes only the sign of the result, never its
zero-ness, and every call site tests the result against 0 only. -/
def strncmp (a b : List Nat) : Nat → Int
  | 0 => 0
  | n + 1 =>
    let x := a.headD 0
    let y := b.headD 0
    if x ≠ y then (x : Int) - (y : Int)
    else if x = 0 then 0
    else strncmp a.tail b.tail n

/-- C `strncpy(dst, src, n)` into a zero-filled `n`-byte destination:
copies up to `n` bytes stopping at the first NUL, zero-padding the rest. -/
def cstrncpy (src : List Nat) (n : Nat) : List Nat :=
  let p := (src.takeWhile (fun b => b ≠ 0)).take n
  p ++ List.replicate (n - p.length) 0

/-- The 8 bytes of `MAGIC` from jeefs_generated.h: the string literal
"JETHOME" with its NUL terminator, i.e. "JETHOME\x00". -/
def magicBytes : List Nat := [74, 69, 84, 72, 79, 77, 69, 0]

/-! ### CRC32 (zlib `crc32`, called as `crc32(0L, data, length)`) -/

/-- One reflected-polynomial division step (polynomial 0xEDB88320). -/
def crcStep (c : Nat) : Nat :=
  if c % 2 = 1 then Nat.xor (c / 2) 0xEDB88320 else c / 2

/-- Iterated division steps. -/
def crcSteps : Nat → Nat → Nat
  | 0, c => c
  | n + 1, c => crcSteps n (crcStep c)

/-- Process one byte. -/
def crcByte (c b : Nat) : Nat := crcSteps 8 (Nat.xor c (b % 256))

/-- Left fold of `crcByte` over the data bytes.  The accumulator is brought
to a numeral before each recursive call (the `match`), which keeps kernel
evaluation of concrete CRCs shallow; the result is the plain left fold. -/
def crcFold : Nat → List Nat → Nat
  | c, [] => c
  | c, b :: l =>
    match crcByte c b with
    | 0 => crcFold 0 l
    | m + 1 => crcFold (m + 1) l

/-- zlib `crc32(0L, data, len)`: reflected polynomial 0xEDB88320 with internal
initial register 0xFFFFFFFF and final XOR with 0xFFFFFFFF.  This is the
function `calculateCRC32` (jeefs.c) and `header_crc32` (jeefs_header.c)
compute. -/
def zcrc32 (data : List Nat) : Nat :=
  Nat.xor (crcFold 0xFFFFFFFF data) 0xFFFFFFFF

/-- Modelled from the spec: the CRC function the spec's words describe for
claim C7 — "polynomial 0xEDB88320 (reflected IEEE), initial value 0, and no
final XOR".  Used only to compare the spec's description with the code's
actual CRC (`zcrc32`). -/
def specCrcInit0 (data : List Nat) : Nat := crcFold 0 data

/-! ### Header codec (jeefs_header.c) -/

/-- `jeefs_header_size`: 1 → 512 (`sizeof(JEEPROMHeaderv1)`), 2 → 256,
3 → 256, anything else → −1. -/
def jeefs_header_size (version : Nat) : Int :=
  if version = 1 then 512 else if version = 2 then 256 else if version = 3 then 256 else -1

/-- The header size of a supported version, as a natural number. -/
def headerSizeN (v : Nat) : Nat := if v = 1 then 512 else 256

/-- `jeefs_header_detect_version`: needs 12 bytes, compares the first 8
bytes to MAGIC with `strncmp(..., 8)`, then accepts the version byte at
offset 8 iff `jeefs_header_size` knows it. -/
def jeefs_header_detect_version (data : List Nat) : Int :=
  if data.length < 12 then -1
  else if strncmp (data.take 8) magicBytes 8 ≠ 0 then -1
  else if jeefs_header_size (byteAt data 8) < 0 then -1
  else (byteAt data 8 : Int)

/-- `jeefs_header_verify_crc`: detect version, check buffer length, read the
stored little-endian CRC32 from the final 4 bytes of the header, recompute
over `[0, hdr_size − 4)`; succeed iff stored ≠ 0 and stored = computed. -/
def jeefs_header_verify_crc (data : List Nat) : Int :=
  let v := jeefs_header_detect_version data
  if v < 0 then -1
  else
    let hs := (jeefs_header_size v.toNat).toNat
    if data.length < hs then -1
    else
      let stored := rd32 (readBytes data (hs - 4) 4)
      let calcCrc := zcrc32 (readBytes data 0 (hs - 4))
      if stored = 0 ∨ calcCrc ≠ stored then -1 else 0

/-- `jeefs_header_update_crc`: detect version, recompute the CRC32 over
`[0, hdr_size − 4)` and store it little-endian at `hdr_size − 4`. -/
def jeefs_header_update_crc (data : List Nat) : Int × List Nat :=
  let v := jeefs_header_detect_version data
  if v < 0 then (-1, data)
  else
    let hs := (jeefs_header_size v.toNat).toNat
    if data.length < hs then (-1, data)
    else
      let calcCrc := zcrc32 (readBytes data 0 (hs - 4))
      (0, writeBytes data (hs - 4) (le32 calcCrc))

/-- `jeefs_header_init`: zero the first `hdr_size` bytes, write MAGIC at 0
and the version byte at 8 (the v3-specific defaults are already zero), then
compute and store the CRC via `jeefs_header_update_crc`. -/
def jeefs_header_init (data : List Nat) (version : Nat) : Int × List Nat :=
  let hsI := jeefs_header_size version
  if hsI < 0 ∨ (data.length : Int) < hsI then (-1, data)
  else
    let hs := hsI.toNat
    let d1 := writeBytes data 0 (List.replicate hs 0)
    let d2 := writeBytes d1 0 magicBytes
    let d3 := writeBytes d2 8 [version % 256]
    jeefs_header_update_crc d3

/-! ### File system (jeefs.c)

The concrete error values of eepromerr.h. -/

def NOTHINGDO : Int := 0
def FILEEXISTS : Int := -1
def FILENAMENOTVALID : Int := -4
def FILENOTFOUND : Int := -5
def NOTENOUGHSPACE : Int := -6
def BUFFERNOTVALID : Int := -8
def EEPROMREADERROR : Int := -11

/-- `EEPROM_ByteIsEmpty`: `'\xFF'` (byte 255, −1 as a signed char) or `'\0'`. -/
def byteIsEmpty (b : Nat) : Bool := b = 255 || b = 0

/-- `EEPROM_WordIsEmpty`. -/
def wordIsEmpty (w : Nat) : Bool := w = 0xFFFF || w = 0

/-- The parsed 24-byte packed `JEEFSFileHeaderv1`:
`char name[16]; uint16_t dataSize; uint32_t crc32; uint16_t nextFileAddress`. -/
structure FileHdr where
  name : List Nat
  dataSize : Nat
  crc32 : Nat
  nextFileAddress : Nat
deriving Repr, DecidableEq

/-- Parse a 24-byte record header. -/
def parseHdr (bs : List Nat) : FileHdr :=
  ⟨bs.take 16, rd16 (readBytes bs 16 2), rd32 (readBytes bs 18 4), rd16 (readBytes bs 22 2)⟩

/-- Serialize a record header back to its 24 packed bytes (the multi-byte
fields truncate to their width exactly as the uint16/uint32 struct fields do). -/
def serHdr (h : FileHdr) : List Nat :=
  (h.name ++ List.replicate (16 - h.name.length) 0).take 16 ++
    le16 h.dataSize ++ le32 h.crc32 ++ le16 h.nextFileAddress

/-- The 16-byte `name` field produced by `memset(0)` + `strncpy(name, fn, 15)`
for a filename of length ≤ 15: the name bytes followed by NUL padding. -/
def mkNameField (n : List Nat) : List Nat := n ++ List.replicate (16 - n.length) 0

/-- The 24 packed bytes of a record header with a given 16-byte name field. -/
def mkHdrBytes (name16 : List Nat) (ds crc next : Nat) : List Nat :=
  name16 ++ le16 ds ++ le32 crc ++ le16 next

/-- `EEPROM_GetHeaderSize` on the 12-byte `JEEPROMHeaderversion` prefix:
`strncmp` the magic, then `sizeof` by version. -/
def EEPROM_GetHeaderSize (hdr : List Nat) : Int :=
  if strncmp (hdr.take 8) magicBytes 8 ≠ 0 then -1
  else match byteAt hdr 8 with
    | 1 => 512
    | 2 => 256
    | 3 => 256
    | _ => -1

/-- `EEPROM_GetHeaderSize_read`: reads the 12-byte prefix at offset 0 (the C
code ignores the read's result; when the image is shorter than 12 bytes the
struct holds uninitialized stack memory, modelled as `none`). -/
def EEPROM_GetHeaderSize_read (img : List Nat) : Option Int :=
  (eeprom_read img 12 0).map EEPROM_GetHeaderSize

/-- `EEPROM_getNextFileAddress`: re-read the 24-byte header at
`currentAddress`; 0 on read failure, else its `nextFileAddress`. -/
def EEPROM_getNextFileAddress (img : List Nat) (current : Nat) : Nat :=
  match eeprom_read img 24 current with
  | none => 0
  | some bs => rd16 (readBytes bs 22 2)

/-- Result of `EEPROM_FindFile`: its int results −4 (bad filename),
−1 (read error / bad header), 0 (not found), and 1 (found, with the
record header and its absolute address). -/
inductive FindRes where
  | badName : FindRes
  | err : FindRes
  | notFound : FindRes
  | found : FileHdr → Nat → FindRes
deriving Repr, DecidableEq

/-- The `while (1)` walk inside `EEPROM_FindFile`.  The fuel only models the
possibility that the C loop never terminates on a cyclic chain (`none`);
it is immaterial on any image whose addresses strictly increase. -/
def findLoop (img fn : List Nat) : Nat → Nat → Option FindRes
  | _, 0 => none
  | current, fuel + 1 =>
    match eeprom_read img 24 current with
    | none => some FindRes.err
    | some hdrB =>
      if strncmp (hdrB.take 16) fn 15 = 0 then some (FindRes.found (parseHdr hdrB) current)
      else
        let next := EEPROM_getNextFileAddress img current
        if next = 0 then some FindRes.notFound
        else findLoop img fn next fuel

/-- `EEPROM_FindFile`: validate the filename length, read the header size
(bad magic/version → −1), then walk the record list from `files_start`. -/
def EEPROM_FindFile (img fn : List Nat) : Option FindRes :=
  if fn.length > 15 then some FindRes.badName
  else match EEPROM_GetHeaderSize_read img with
    | none => none
    | some hsI =>
      if hsI < 0 then some FindRes.err
      else findLoop img fn (intToU16 hsI) (img.length + 1)

/-- The address at which `EEPROM_FindFile` finds a file, if any. -/
def findAddr (img fn : List Nat) : Option Nat :=
  match EEPROM_FindFile img fn with
  | some (FindRes.found _ a) => some a
  | _ => none

/-- The `while (count < maxFiles)` walk of `EEPROM_ListFiles`; fuel is the
exact remaining slot count, so the loop never diverges. -/
def listLoop (img : List Nat) : Nat → Nat → List (List Nat)
  | _, 0 => []
  | current, rem + 1 =>
    match eeprom_read img 24 current with
    | none => []
    | some hdrB =>
      let nm := cstrncpy (hdrB.take 16) 15
      let next := EEPROM_getNextFileAddress img current
      nm :: (if next = 0 then [] else listLoop img next rem)

/-- `EEPROM_ListFiles`: walk from the header size (its int value converted
to the `uint16_t currentAddress`), copying each record's name with
`strncpy(..., FILE_NAME_LENGTH)` into the caller's 15-byte rows.  Returns
the entry count and the copied names. -/
def EEPROM_ListFiles (img : List Nat) (maxFiles : Nat) : Option (Nat × List (List Nat)) :=
  match EEPROM_GetHeaderSize_read img with
  | none => none
  | some hsI =>
    let names := listLoop img (intToU16 hsI) maxFiles
    some (names.length, names)

/-- `EEPROM_ReadFile`: validate name and buffer, locate the record, reject a
caller buffer smaller than `dataSize`, then copy `dataSize` bytes from
`address + 24`.  The second component models the bytes copied into the
caller's buffer.  The function performs no `eeprom_write`: the image is
left untouched (the model returns no image). -/
def EEPROM_ReadFile (img fn : List Nat) (bufferSize : Nat) : Option (Int × List Nat) :=
  if fn.length > 15 then some (FILENAMENOTVALID, [])
  else if bufferSize = 0 then some (BUFFERNOTVALID, [])
  else match EEPROM_FindFile img fn with
    | none => none
    | some (FindRes.found h addr) =>
      if h.dataSize > bufferSize then some (BUFFERNOTVALID, [])
      else match eeprom_read img h.dataSize (addr + 24) with
        | none => some (-1, [])
        | some bytes =>
          if 0 < h.dataSize then some (toInt16 h.dataSize, bytes) else some (-1, bytes)
    | some _ => some (FILENOTFOUND, [])

/-- The free-slot search loop of `EEPROM_AddFile`.  Loop condition:
`!WordIsEmpty(current) && current < size − 24` (the image sizes considered
are ≥ 24, where `current < size − 24` equals `current + 24 < size`).  The
body breaks on an empty name byte, an empty data size, or a nonempty
`nextFileAddress` violating contiguity; otherwise it advances to
`nextFileAddress`.  Returns `inl code` for the in-loop error return and
`inr (previousAddress, currentAddress)` at loop exit. -/
def addLoop (img : List Nat) : Nat → Nat → Nat → Option (Int ⊕ (Nat × Nat))
  | current, prev, fuel =>
    if wordIsEmpty current || !(current + 24 < img.length) then some (Sum.inr (prev, current))
    else match fuel with
      | 0 => none
      | fuel + 1 =>
        match eeprom_read img 24 current with
        | none => some (Sum.inl EEPROMREADERROR)
        | some hdrB =>
          let h := parseHdr hdrB
          if byteIsEmpty (byteAt hdrB 0) || wordIsEmpty h.dataSize ||
              (!wordIsEmpty h.nextFileAddress && h.nextFileAddress ≠ h.dataSize + 24 + current)
          then some (Sum.inr (prev, current))
          else addLoop img h.nextFileAddress current fuel

/-- `EEPROM_AddFile`: validate name and data; return 0 if the file already
exists; walk to the insertion point; relink the previous record (computed
before, written after the capacity check); reject `new_offset + 24 +
dataSize ≥ image_size` with `NOTENOUGHSPACE`; then write the new record
header (name strncpy-truncated, CRC32 of the data, `nextFileAddress = 0`)
followed by the data bytes, returning `dataSize % INT16_MAX`. -/
def EEPROM_AddFile (img fn data : List Nat) : Option (Int × List Nat) :=
  if fn.length > 15 then some (FILENAMENOTVALID, img)
  else if data.length = 0 then some (BUFFERNOTVALID, img)
  else
    let ds := data.length % 65536
    match EEPROM_GetHeaderSize_read img with
    | none => none
    | some hsI =>
      let headerSize := intToU16 hsI
      match EEPROM_FindFile img fn with
      | none => none
      | some (FindRes.found _ _) => some (0, img)
      | some _ =>
        match addLoop img headerSize 0 (img.length + 1) with
        | none => none
        | some (Sum.inl code) => some (code, img)
        | some (Sum.inr (prev, _)) =>
          match (if prev ≠ 0 then eeprom_read img 24 prev else some []) with
          | none => none
          | some prevB =>
            let prevH := parseHdr prevB
            let newNext := (prev + 24 + prevH.dataSize) % 65536
            let current := if prev ≠ 0 then newNext else headerSize
            if current + 24 + ds ≥ img.length then some (NOTENOUGHSPACE, img)
            else
              let img1 :=
                if prev ≠ 0 then
                  (eeprom_write img (serHdr { prevH with nextFileAddress := newNext }) prev).getD img
                else img
              let newHdr := mkHdrBytes ((mkNameField fn).take 16) ds (zcrc32 (data.take ds)) 0
              match eeprom_write img1 newHdr current with
              | none => some (-1, img1)
              | some img2 =>
                match eeprom_write img2 (data.take ds) (current + 24) with
                | none => some (-1, img2)
                | some img3 => some ((ds % 32767 : Nat), img3)

/-- The forward-sliding copy loop of `EEPROM_DeleteFile`: while
`readAddress < size`, read `shift` bytes at `readAddress` (stop on a failed
read), write them at `readAddress − shift`, advance by `shift`.  Fuel models
the non-terminating `shift = 0` execution. -/
def moveLoop (sz shift : Nat) : List Nat → Nat → Nat → Option (List Nat × Nat)
  | img, ra, fuel =>
    if ra < sz then
      match fuel with
      | 0 => none
      | fuel + 1 =>
        match eeprom_read img shift ra with
        | none => some (img, ra)
        | some bs => moveLoop sz shift ((eeprom_write img bs (ra - shift)).getD img) (ra + shift) fuel
    else some (img, ra)

/-- The clearing loop of `EEPROM_DeleteFile`:
`for (i = 0; i < shift && readAddress − i < size; i++)` write one
`EEPROM_EMPTYBYTE` (0x00) at `readAddress − i − 1`. -/
def clearLoop (sz ra : Nat) : List Nat → Nat → Nat → List Nat
  | img, _, 0 => img
  | img, i, rem + 1 =>
    if ra - i < sz then clearLoop sz ra ((eeprom_write img [0] (ra - i - 1)).getD img) (i + 1) rem
    else img

/-- `EEPROM_DeleteFile`: locate the record (`found ≤ 0` → `FILENOTFOUND`),
slide every following byte down by `shift = 24 + dataSize`, then fill the
trailing `shift` bytes with the empty byte; return 1. -/
def EEPROM_DeleteFile (img fn : List Nat) : Option (Int × List Nat) :=
  if fn.length > 15 then some (FILENAMENOTVALID, img)
  else match EEPROM_FindFile img fn with
    | none => none
    | some (FindRes.found h addr) =>
      let shift := (24 + h.dataSize) % 65536
      let na := (addr + 24 + h.dataSize) % 65536
      match moveLoop img.length shift img na (img.length + 1) with
      | none => none
      | some (img1, ra) => some (1, clearLoop img.length ra img1 0 shift)
    | some _ => some (FILENOTFOUND, img)

/-- `EEPROM_WriteFile`: locate the record; same size → overwrite the data in
place at `address + 24` and rewrite the record header with the fresh data
CRC32 (that write's result is ignored by the C code); different size →
delete then add. -/
def EEPROM_WriteFile (img fn data : List Nat) : Option (Int × List Nat) :=
  if fn.length > 15 then some (FILENAMENOTVALID, img)
  else if data.length = 0 then some (BUFFERNOTVALID, img)
  else
    let ds := data.length % 65536
    match EEPROM_FindFile img fn with
    | none => none
    | some (FindRes.found h addr) =>
      if h.dataSize ≠ ds then
        match EEPROM_DeleteFile img fn with
        | none => none
        | some (_, img1) => EEPROM_AddFile img1 fn data
      else
        match eeprom_write img (data.take ds) (addr + 24) with
        | none => some (0, img)
        | some img1 =>
          some (toInt16 ds, (eeprom_write img1 (serHdr { h with crc32 := zcrc32 (data.take ds) }) addr).getD img1)
    | some _ => some (FILENOTFOUND, img)

/-- `EEPROM_HeaderCheckConsistency`: read the header size (bad magic or
version → −1), read the whole header (`EEPROM_GetHeader`; a short image
leaves the stack union partly uninitialized, modelled `none`), then compare
the stored CRC32 field against the CRC32 of the preceding bytes; a stored
CRC of 0 fails. -/
def EEPROM_HeaderCheckConsistency (img : List Nat) : Option Int :=
  match EEPROM_GetHeaderSize_read img with
  | none => none
  | some hsI =>
    if hsI < 0 then some (-1)
    else
      let hs := hsI.toNat
      if img.length < hs then none
      else
        let hdr := readBytes img 0 hs
        let old := rd32 (readBytes hdr (hs - 4) 4)
        let calcCrc := zcrc32 (hdr.take (hs - 4))
        if old = 0 ∨ calcCrc ≠ old then some (-1) else some 0

/-- `EEPROM_FormatEEPROM` on an image of a given size: fill a buffer with
`EEPROM_EMPTYBYTE` (0x00), write MAGIC and the version byte, store the
CRC32 of the leading `hdr_size − 4` bytes at `hdr_size − 4` (the extra v3
field stores re-write bytes that are already zero), and write the whole
buffer to the device.  An unknown version returns −1 without writing, and a
buffer smaller than the header is an out-of-bounds VLA store; both are
modelled `none`. -/
def EEPROM_FormatEEPROM (sz v : Nat) : Option (List Nat) :=
  if (v = 1 ∨ v = 2 ∨ v = 3) ∧ headerSizeN v ≤ sz then
    let b1 := writeBytes (List.replicate sz 0) 0 magicBytes
    let b2 := writeBytes b1 8 [v % 256]
    let hs := headerSizeN v
    let b3 := writeBytes b2 (hs - 4) (le32 (zcrc32 (readBytes b2 0 (hs - 4))))
    some b3
  else none

/-! ### Layout model: images satisfying the record-list invariants -/

/-- An abstract file entry: stored name, data bytes, stored data CRC32. -/
structure Entry where
  name : List Nat
  data : List Nat
  crc : Nat
deriving Repr, DecidableEq

/-- Well-formed entry: a nonempty name of at most 15 bytes, none of which is
a NUL or the 0xFF empty byte; a data block whose size is in `[1, 65534]`
(invariant F1 and the empty-word sentinels); byte-valued data; a CRC within
uint32 range. -/
def EntryOK (e : Entry) : Prop :=
  e.name ≠ [] ∧ e.name.length ≤ 15 ∧ (∀ b ∈ e.name, 0 < b ∧ b < 255) ∧
    1 ≤ e.data.length ∧ e.data.length ≤ 65534 ∧ (∀ b ∈ e.data, b < 256) ∧ e.crc < 4294967296

instance (e : Entry) : Decidable (EntryOK e) :=
  decidable_of_iff
    (e.name ≠ [] ∧ e.name.length ≤ 15 ∧ (∀ b ∈ e.name, 0 < b ∧ b < 255) ∧
      1 ≤ e.data.length ∧ e.data.length ≤ 65534 ∧ (∀ b ∈ e.data, b < 256) ∧
      e.crc < 4294967296) Iff.rfl

/-- A filename argument that passes the C name validation and contains
ordinary (nonzero, non-0xFF) bytes. -/
def ValidCName (fn : List Nat) : Prop :=
  fn ≠ [] ∧ fn.length ≤ 15 ∧ ∀ b ∈ fn, 0 < b ∧ b < 255

instance (fn : List Nat) : Decidable (ValidCName fn) :=
  decidable_of_iff (fn ≠ [] ∧ fn.length ≤ 15 ∧ ∀ b ∈ fn, 0 < b ∧ b < 255) Iff.rfl

/-- Bytes occupied by one record: 24-byte header plus its data (F2). -/
def entrySpan (e : Entry) : Nat := 24 + e.data.length

/-- First byte after the record list that starts at `addr`. -/
def filesEnd (addr : Nat) (es : List Entry) : Nat := addr + (es.map entrySpan).sum

/-- The 24 header bytes of the record for `e` at `addr`, given the records
that follow it: `nextFileAddress` is 0 for the last record and the
contiguous `addr + 24 + dataSize` otherwise (F3). -/
def entryHdrBytes (addr : Nat) (e : Entry) (rest : List Entry) : List Nat :=
  mkHdrBytes (mkNameField e.name) e.data.length e.crc
    (if rest.isEmpty then 0 else addr + 24 + e.data.length)

/-- The record list of `es` is laid out contiguously at `addr` (invariants
F1–F4 over the image bytes). -/
def chainOK (img : List Nat) : Nat → List Entry → Prop
  | _, [] => True
  | addr, e :: rest =>
    EntryOK e ∧ readBytes img addr 24 = entryHdrBytes addr e rest ∧
      readBytes img (addr + 24) e.data.length = e.data ∧
      addr + 24 + e.data.length ≤ img.length ∧
      chainOK img (addr + 24 + e.data.length) rest

/-- Decision procedure for `chainOK` (used to certify concrete images). -/
def chainOKdec (img : List Nat) : (es : List Entry) → (addr : Nat) → Decidable (chainOK img addr es)
  | [], _ => Decidable.isTrue trivial
  | e :: rest, addr =>
    haveI : Decidable (chainOK img (addr + 24 + e.data.length) rest) :=
      chainOKdec img rest (addr + 24 + e.data.length)
    decidable_of_iff
      (EntryOK e ∧ readBytes img addr 24 = entryHdrBytes addr e rest ∧
        readBytes img (addr + 24) e.data.length = e.data ∧
        addr + 24 + e.data.length ≤ img.length ∧
        chainOK img (addr + 24 + e.data.length) rest) Iff.rfl

instance (img : List Nat) (addr : Nat) (es : List Entry) : Decidable (chainOK img addr es) :=
  chainOKdec img es addr

/-- A valid image for header version `v` holding exactly the files `es`:
valid magic and version byte, room for at least one record slot, 16-bit
offsets only, a contiguous record chain at `files_start = header_size(v)`,
zeroed bytes from the end of the chain to the end of the image, distinct
names, and byte-valued contents. -/
def goodImage (img : List Nat) (v : Nat) (es : List Entry) : Prop :=
  (v = 1 ∨ v = 2 ∨ v = 3) ∧
    readBytes img 0 8 = magicBytes ∧
    byteAt img 8 = v ∧
    headerSizeN v + 24 ≤ img.length ∧
    img.length ≤ 65535 ∧
    (∀ e ∈ es, EntryOK e) ∧
    chainOK img (headerSizeN v) es ∧
    img.drop (filesEnd (headerSizeN v) es) =
      List.replicate (img.length - filesEnd (headerSizeN v) es) 0 ∧
    (es.map Entry.name).Nodup ∧
    (∀ b ∈ img, b < 256)

instance (img : List Nat) (v : Nat) (es : List Entry) : Decidable (goodImage img v es) :=
  decidable_of_iff
    ((v = 1 ∨ v = 2 ∨ v = 3) ∧
      readBytes img 0 8 = magicBytes ∧
      byteAt img 8 = v ∧
      headerSizeN v + 24 ≤ img.length ∧
      img.length ≤ 65535 ∧
      (∀ e ∈ es, EntryOK e) ∧
      chainOK img (headerSizeN v) es ∧
      img.drop (filesEnd (headerSizeN v) es) =
        List.replicate (img.length - filesEnd (headerSizeN v) es) 0 ∧
      (es.map Entry.name).Nodup ∧
      (∀ b ∈ img, b < 256)) Iff.rfl

/-- What `EEPROM_FindFile` computes on a valid image: the first entry whose
stored name equals the filename, together with its parsed header and
address. -/
def findSpec (fn : List Nat) : Nat → List Entry → FindRes
  | _, [] => FindRes.notFound
  | addr, e :: rest =>
    if e.name = fn then
      FindRes.found
        ⟨mkNameField e.name, e.data.length, e.crc,
          if rest.isEmpty then 0 else addr + 24 + e.data.length⟩ addr
    else findSpec fn (addr + 24 + e.data.length) rest

/-- The address of the record that the free-slot walk of `EEPROM_AddFile`
keeps as `previousAddress`: the last record of the chain. -/
def lastAddr (addr : Nat) : List Entry → Nat
  | [] => addr
  | [_] => addr
  | e :: rest => lastAddr (addr + 24 + e.data.length) rest

/-! ### The header area written by `jeefs_header_init`, and concrete images -/

/-- The first `hdr_size` bytes after `jeefs_header_init`'s `memset` /
`memcpy(MAGIC)` / version-byte stores, before the CRC is written. -/
def hdrArea (v : Nat) : List Nat :=
  writeBytes (writeBytes (List.replicate (headerSizeN v) 0) 0 magicBytes) 8 [v % 256]

/-- A freshly formatted 284-byte version-2 image: `256 + 24 + 4` bytes. -/
def imgF284 : List Nat := (EEPROM_FormatEEPROM 284 2).getD []

/-- A freshly formatted 320-byte version-2 image. -/
def imgF320 : List Nat := (EEPROM_FormatEEPROM 320 2).getD []

/-- The file "a" with data `[7, 8]`. -/
def entA : Entry := ⟨[97], [7, 8], zcrc32 [7, 8]⟩

/-- `imgF320` after adding the file "a" = `[7, 8]`. -/
def imgA : List Nat := ((EEPROM_AddFile imgF320 [97] [7, 8]).getD (0, [])).2

/-- A freshly formatted 340-byte version-2 image. -/
def imgF340 : List Nat := (EEPROM_FormatEEPROM 340 2).getD []

/-- `imgF340` plus "a" = `[1]`. -/
def imgB1 : List Nat := ((EEPROM_AddFile imgF340 [97] [1]).getD (0, [])).2

/-- `imgB1` plus "b" = `[2, 2]`. -/
def imgB2 : List Nat := ((EEPROM_AddFile imgB1 [98] [2, 2]).getD (0, [])).2

/-- `imgB2` plus "c" = `[3]`. -/
def imgB3 : List Nat := ((EEPROM_AddFile imgB2 [99] [3]).getD (0, [])).2

/-- `imgB3` after deleting "a", which is followed by the two records
"b" and "c". -/
def imgB4 : List Nat := ((EEPROM_DeleteFile imgB3 [97]).getD (0, [])).2

/-- A version-2 header whose stored CRC word (and every other non-magic,
non-version byte) is zero. -/
def hdrZero2 : List Nat := magicBytes ++ [2] ++ List.replicate 247 0

/-- A zeroed 256-byte buffer initialised by `jeefs_header_init(..., 2)`. -/
def hdrInitV2 : List Nat := (jeefs_header_init (List.replicate 256 0) 2).2

/-- The 256 header bytes of a version-2 image (CRC field zero, which no file
operation looks at). -/
def hdrP : List Nat := magicBytes ++ [2] ++ List.replicate 247 0

/-- A data block bigger than `INT16_MAX`. -/
def dataBig : List Nat := List.replicate 33000 7

/-- The file "a" holding `dataBig` (the stored data CRC32 field, which no
read-path operation recomputes, is an arbitrary in-range word). -/
def entBig : Entry := ⟨[97], dataBig, 12345⟩

/-- A 33280-byte version-2 image holding exactly the 33000-byte file "a". -/
def imgBig : List Nat :=
  (hdrP ++ mkHdrBytes (mkNameField [97]) 33000 12345 0) ++ dataBig

/-! ### Basic lemmas about the byte-buffer primitives -/

lemma length_writeBytes {l bs : List Nat} {off : Nat} (h : off + bs.length ≤ l.length) :
    (writeBytes l off bs).length = l.length := by
  simp [writeBytes]; omega

lemma length_readBytes {l : List Nat} {off n : Nat} (h : off + n ≤ l.length) :
    (readBytes l off n).length = n := by
  simp [readBytes]; omega

lemma readBytes_append {p t : List Nat} {off n : Nat} (h : off + n ≤ p.length) :
    readBytes (p ++ t) off n = readBytes p off n := by
  unfold readBytes
  rw [List.drop_append_of_le_length (by omega),
    List.take_append_of_le_length (by simp; omega)]

lemma writeBytes_append {p t bs : List Nat} {off : Nat} (h : off + bs.length ≤ p.length) :
    writeBytes (p ++ t) off bs = writeBytes p off bs ++ t := by
  unfold writeBytes
  rw [List.take_append_of_le_length (by omega), List.drop_append_of_le_length (by omega)]
  simp

lemma byteAt_append {p t : List Nat} {i : Nat} (h : i < p.length) :
    byteAt (p ++ t) i = byteAt p i := by
  simp [byteAt, List.getD, List.getElem?_append_left h]

lemma readBytes_zero_off (l : List Nat) (n : Nat) : readBytes l 0 n = l.take n := by
  simp [readBytes]

lemma readBytes_writeBytes_self {l bs : List Nat} {off : Nat} (h : off + bs.length ≤ l.length) :
    readBytes (writeBytes l off bs) off bs.length = bs := by
  apply List.ext_getElem?
  intro i
  simp only [readBytes, writeBytes, List.getElem?_take, List.getElem?_drop, List.getElem?_append,
    List.length_take, List.length_drop, List.length_append]
  split_ifs <;> first
    | rfl
    | omega
    | (congr 1; omega)
    | (rw [List.getElem?_eq_none (by omega)])
    | (rw [eq_comm, List.getElem?_eq_none (by omega)])

lemma readBytes_writeBytes_before {l bs : List Nat} {a n off : Nat}
    (h : a + n ≤ off) (h2 : off ≤ l.length) :
    readBytes (writeBytes l off bs) a n = readBytes l a n := by
  apply List.ext_getElem?
  intro i
  simp only [readBytes, writeBytes, List.getElem?_take, List.getElem?_drop, List.getElem?_append,
    List.length_take, List.length_drop, List.length_append]
  split_ifs <;> first
    | rfl
    | omega
    | (congr 1; omega)
    | (rw [List.getElem?_eq_none (by omega)])
    | (rw [eq_comm, List.getElem?_eq_none (by omega)])

lemma readBytes_writeBytes_after {l bs : List Nat} {a n off : Nat}
    (h : off + bs.length ≤ a) (h2 : off + bs.length ≤ l.length) :
    readBytes (writeBytes l off bs) a n = readBytes l a n := by
  apply List.ext_getElem?
  intro i
  simp only [readBytes, writeBytes, List.getElem?_take, List.getElem?_drop, List.getElem?_append,
    List.length_take, List.length_drop, List.length_append]
  split_ifs <;> first
    | rfl
    | omega
    | (congr 1; omega)
    | (rw [List.getElem?_eq_none (by omega)])
    | (rw [eq_comm, List.getElem?_eq_none (by omega)])

lemma drop_writeBytes_after {l bs : List Nat} {off a : Nat}
    (h : off + bs.length ≤ a) (h2 : off + bs.length ≤ l.length) :
    (writeBytes l off bs).drop a = l.drop a := by
  apply List.ext_getElem?
  intro i
  simp only [writeBytes, List.getElem?_drop, List.getElem?_append,
    List.length_take, List.length_drop, List.length_append]
  split_ifs <;> first
    | rfl
    | omega
    | (congr 1; omega)
    | (rw [List.getElem?_eq_none (by omega)])
    | (rw [eq_comm, List.getElem?_eq_none (by omega)])

lemma writeBytes_bytes_lt {l bs : List Nat} {off : Nat}
    (hl : ∀ b ∈ l, b < 256) (hbs : ∀ b ∈ bs, b < 256) :
    ∀ b ∈ writeBytes l off bs, b < 256 := by
  intro b hb
  unfold writeBytes at hb
  rcases List.mem_append.1 hb with hb | hb
  · rcases List.mem_append.1 hb with hb | hb
    · exact hl b (List.take_subset _ _ hb)
    · exact hbs b hb
  · exact hl b (List.drop_subset _ _ hb)

lemma rd16_le16 (x : Nat) : rd16 (le16 x) = x % 65536 := by
  simp [rd16, le16, byteAt]
  omega

lemma rd32_le32 (x : Nat) : rd32 (le32 x) = x % 4294967296 := by
  simp [rd32, le32, byteAt]
  omega

lemma length_le16 (x : Nat) : (le16 x).length = 2 := rfl

lemma length_le32 (x : Nat) : (le32 x).length = 4 := rfl

lemma le16_bytes_lt (x : Nat) : ∀ b ∈ le16 x, b < 256 := by
  simp [le16]
  omega

lemma le32_bytes_lt (x : Nat) : ∀ b ∈ le32 x, b < 256 := by
  simp [le32]
  omega

lemma length_mkNameField {n : List Nat} (h : n.length ≤ 15) : (mkNameField n).length = 16 := by
  simp [mkNameField]
  omega

lemma length_mkHdrBytes {n16 : List Nat} (h : n16.length = 16) (ds crc nx : Nat) :
    (mkHdrBytes n16 ds crc nx).length = 24 := by
  simp [mkHdrBytes, h, length_le16, length_le32]

/-! ### Lemmas about `strncmp` -/

lemma strncmp_append_replicate : ∀ (n : Nat) (a b : List Nat) (k : Nat),
    strncmp (a ++ List.replicate k 0) b n = strncmp a b n := by
  intro n
  induction n with
  | zero => intro a b k; rfl
  | succ n ih =>
    intro a b k
    cases a with
    | nil =>
      cases k with
      | zero => simp
      | succ k' =>
        simp only [List.nil_append, List.replicate_succ, strncmp, List.headD_cons, List.headD_nil]
        split_ifs <;> rfl
    | cons ha ta =>
      simp only [List.cons_append, strncmp, List.headD_cons, List.tail_cons]
      split_ifs <;> first | rfl | exact ih ta b.tail k

lemma strncmp_eq_zero_iff : ∀ (n : Nat) (a b : List Nat),
    (∀ x ∈ a, x ≠ 0) → (∀ x ∈ b, x ≠ 0) → a.length ≤ n → b.length ≤ n →
    (strncmp a b n = 0 ↔ a = b) := by
  intro n
  induction n with
  | zero =>
    intro a b _ _ hla hlb
    have ha : a = [] := List.eq_nil_of_length_eq_zero (by omega)
    have hb : b = [] := List.eq_nil_of_length_eq_zero (by omega)
    subst ha
    subst hb
    simp [strncmp]
  | succ n ih =>
    intro a b hA hB hla hlb
    cases a with
    | nil =>
      cases b with
      | nil => simp [strncmp]
      | cons hb tb =>
        have hb0 : hb ≠ 0 := hB hb (by simp)
        simp only [strncmp, List.headD_nil, List.headD_cons]
        rw [if_pos (by omega)]
        constructor
        · intro hc; omega
        · intro hc; exact absurd hc (by simp)
    | cons ha ta =>
      cases b with
      | nil =>
        have ha0 : ha ≠ 0 := hA ha (by simp)
        simp only [strncmp, List.headD_nil, List.headD_cons]
        rw [if_pos (by omega)]
        constructor
        · intro hc; omega
        · intro hc; exact absurd hc (by simp)
      | cons hb tb =>
        have ha0 : ha ≠ 0 := hA ha (by simp)
        by_cases hxy : ha = hb
        · subst hxy
          simp only [strncmp, List.headD_cons, List.tail_cons, if_neg (by omega : ¬ha ≠ ha),
            if_neg ha0]
          rw [ih ta tb (fun x hx => hA x (by simp [hx])) (fun x hx => hB x (by simp [hx]))
            (by simp at hla; omega) (by simp at hlb; omega)]
          simp
        · simp only [strncmp, List.headD_cons]
          rw [if_pos (by omega)]
          constructor
          · intro hc; omega
          · intro hc; simp at hc; exact absurd hc.1 hxy

lemma strncmp_ne_of_head {a b : List Nat} (n : Nat) (hx : a.headD 0 ≠ b.headD 0) :
    strncmp a b (n + 1) ≠ 0 := by
  simp only [strncmp]
  rw [if_pos hx]
  omega

lemma strncmp_mkNameField {nm fn : List Nat} (hnm : ∀ x ∈ nm, x ≠ 0) (hfn : ∀ x ∈ fn, x ≠ 0)
    (hl1 : nm.length ≤ 15) (hl2 : fn.length ≤ 15) :
    (strncmp (mkNameField nm) fn 15 = 0 ↔ nm = fn) := by
  unfold mkNameField
  rw [strncmp_append_replicate]
  exact strncmp_eq_zero_iff 15 nm fn hnm hfn hl1 hl2

/-! ### CRC32 range and unfolding lemmas -/

lemma crcStep_lt {c : Nat} (h : c < 4294967296) : crcStep c < 4294967296 := by
  unfold crcStep
  split_ifs
  · have h1 : c / 2 < 2 ^ 32 := by omega
    have h2 : (0xEDB88320 : Nat) < 2 ^ 32 := by norm_num
    calc Nat.xor (c / 2) 0xEDB88320 < 2 ^ 32 := Nat.xor_lt_two_pow h1 h2
      _ = 4294967296 := by norm_num
  · omega

lemma crcSteps_lt : ∀ (n : Nat) {c : Nat}, c < 4294967296 → crcSteps n c < 4294967296
  | 0, _, h => h
  | n + 1, c, h => crcSteps_lt n (crcStep_lt h)

lemma crcByte_lt {c : Nat} (b : Nat) (h : c < 4294967296) : crcByte c b < 4294967296 := by
  unfold crcByte
  apply crcSteps_lt
  have h1 : c < 2 ^ 32 := by omega
  have h2 : b % 256 < 2 ^ 32 := by have := Nat.mod_lt b (by norm_num : (0:Nat) < 256); omega
  calc Nat.xor c (b % 256) < 2 ^ 32 := Nat.xor_lt_two_pow h1 h2
    _ = 4294967296 := by norm_num

lemma crcFold_cons (c b : Nat) (l : List Nat) : crcFold c (b :: l) = crcFold (crcByte c b) l := by
  show (match crcByte c b with | 0 => crcFold 0 l | m + 1 => crcFold (m + 1) l) = _
  rcases crcByte c b with _ | m <;> rfl

lemma crcFold_lt : ∀ (l : List Nat) {c : Nat}, c < 4294967296 → crcFold c l < 4294967296
  | [], _, h => h
  | b :: l, c, h => by
    rw [crcFold_cons]
    exact crcFold_lt l (crcByte_lt b h)

lemma zcrc32_lt (l : List Nat) : zcrc32 l < 4294967296 := by
  unfold zcrc32
  have h1 : crcFold 0xFFFFFFFF l < 2 ^ 32 := by
    have := crcFold_lt l (by norm_num : (0xFFFFFFFF : Nat) < 4294967296)
    omega
  have h2 : (0xFFFFFFFF : Nat) < 2 ^ 32 := by norm_num
  calc Nat.xor (crcFold 0xFFFFFFFF l) 0xFFFFFFFF < 2 ^ 32 := Nat.xor_lt_two_pow h1 h2
    _ = 4294967296 := by norm_num

/-! ### Record header parse/serialize lemmas -/

lemma take16_mkHdrBytes {n16 : List Nat} (h : n16.length = 16) (ds crc nx : Nat) :
    (mkHdrBytes n16 ds crc nx).take 16 = n16 := by
  unfold mkHdrBytes
  rw [List.take_append_of_le_length (by simp; omega),
    List.take_append_of_le_length (by simp; omega),
    List.take_append_of_le_length (by omega), List.take_of_length_le (by omega)]

lemma readBytes_mkHdr_ds {n16 : List Nat} (h : n16.length = 16) (ds crc nx : Nat) :
    readBytes (mkHdrBytes n16 ds crc nx) 16 2 = le16 ds := by
  apply List.ext_getElem?
  intro i
  simp only [readBytes, mkHdrBytes, List.getElem?_take, List.getElem?_drop, List.getElem?_append,
    List.length_append, List.length_take, List.length_drop, length_le16, length_le32, h]
  split_ifs <;> first
    | rfl
    | omega
    | (congr 1; omega)
    | (rw [List.getElem?_eq_none (by simp [length_le16]; omega)])
    | (rw [eq_comm, List.getElem?_eq_none (by simp [length_le16]; omega)])

lemma readBytes_mkHdr_crc {n16 : List Nat} (h : n16.length = 16) (ds crc nx : Nat) :
    readBytes (mkHdrBytes n16 ds crc nx) 18 4 = le32 crc := by
  apply List.ext_getElem?
  intro i
  simp only [readBytes, mkHdrBytes, List.getElem?_take, List.getElem?_drop, List.getElem?_append,
    List.length_append, List.length_take, List.length_drop, length_le16, length_le32, h]
  split_ifs <;> first
    | rfl
    | omega
    | (congr 1; omega)
    | (rw [List.getElem?_eq_none (by simp [length_le32]; omega)])
    | (rw [eq_comm, List.getElem?_eq_none (by simp [length_le32]; omega)])

lemma readBytes_mkHdr_next {n16 : List Nat} (h : n16.length = 16) (ds crc nx : Nat) :
    readBytes (mkHdrBytes n16 ds crc nx) 22 2 = le16 nx := by
  apply List.ext_getElem?
  intro i
  simp only [readBytes, mkHdrBytes, List.getElem?_take, List.getElem?_drop, List.getElem?_append,
    List.length_append, List.length_take, List.length_drop, length_le16, length_le32, h]
  split_ifs <;> first
    | rfl
    | omega
    | (congr 1; omega)
    | (rw [List.getElem?_eq_none (by simp [length_le16]; omega)])
    | (rw [eq_comm, List.getElem?_eq_none (by simp [length_le16]; omega)])

lemma parseHdr_mk {n16 : List Nat} (h : n16.length = 16) (ds crc nx : Nat) :
    parseHdr (mkHdrBytes n16 ds crc nx) =
      ⟨n16, ds % 65536, crc % 4294967296, nx % 65536⟩ := by
  unfold parseHdr
  rw [take16_mkHdrBytes h, readBytes_mkHdr_ds h, readBytes_mkHdr_crc h, readBytes_mkHdr_next h,
    rd16_le16, rd32_le32, rd16_le16]

lemma serHdr_mk {n16 : List Nat} (h : n16.length = 16) (ds crc nx : Nat) :
    serHdr ⟨n16, ds, crc, nx⟩ = mkHdrBytes n16 ds crc nx := by
  unfold serHdr mkHdrBytes
  simp [h]

/-! ### The record-chain walk of `EEPROM_FindFile` on valid images -/

lemma eeprom_read_ok {img : List Nat} {count off : Nat} (h : off + count ≤ img.length) :
    eeprom_read img count off = some (readBytes img off count) := by
  unfold eeprom_read
  rw [if_neg (by omega)]

lemma eeprom_write_ok {img bs : List Nat} {off : Nat} (h : off + bs.length ≤ img.length) :
    eeprom_write img bs off = some (writeBytes img off bs) := by
  unfold eeprom_write
  rw [if_neg (by omega)]

lemma length_entryHdrBytes {addr : Nat} {e : Entry} {rest : List Entry} (h : e.name.length ≤ 15) :
    (entryHdrBytes addr e rest).length = 24 :=
  length_mkHdrBytes (length_mkNameField h) _ _ _

lemma filesEnd_cons (addr : Nat) (e : Entry) (rest : List Entry) :
    filesEnd addr (e :: rest) = filesEnd (addr + 24 + e.data.length) rest := by
  simp [filesEnd, entrySpan]
  omega

lemma filesEnd_le_length {img : List Nat} :
    ∀ {es : List Entry} {addr : Nat}, chainOK img addr es → addr ≤ img.length →
      filesEnd addr es ≤ img.length
  | [], addr, _, ha => by simpa [filesEnd] using ha
  | e :: rest, addr, hch, _ => by
    obtain ⟨_, _, _, hbound, hch'⟩ := hch
    rw [filesEnd_cons]
    exact filesEnd_le_length hch' (by omega)

lemma length_le_filesEnd : ∀ (es : List Entry) (addr : Nat), addr + es.length ≤ filesEnd addr es
  | [], addr => by simp [filesEnd]
  | e :: rest, addr => by
    rw [filesEnd_cons]
    have := length_le_filesEnd rest (addr + 24 + e.data.length)
    simp only [List.length_cons]
    omega

lemma findLoop_good {img fn : List Nat} (hfn : ValidCName fn) (hlen : img.length ≤ 65535) :
    ∀ (es : List Entry) (addr fuel : Nat),
      chainOK img addr es →
      (es = [] → addr + 24 ≤ img.length ∧ readBytes img addr 24 = List.replicate 24 0) →
      es.length + 1 ≤ fuel →
      findLoop img fn addr fuel = some (findSpec fn addr es) := by
  intro es
  induction es with
  | nil =>
    intro addr fuel _ hend hfuel
    obtain ⟨h1, h2⟩ := hend rfl
    obtain ⟨f, rfl⟩ : ∃ f, fuel = f + 1 := ⟨fuel - 1, by omega⟩
    have hne : strncmp ((List.replicate 24 (0 : Nat)).take 16) fn 15 ≠ 0 := by
      apply strncmp_ne_of_head 14
      have ha : ((List.replicate 24 (0 : Nat)).take 16).headD 0 = 0 := by decide
      rw [ha]
      obtain ⟨hne', _, hb⟩ := hfn
      cases fn with
      | nil => exact absurd rfl hne'
      | cons c t => have := hb c (by simp); simp; omega
    have hnext : EEPROM_getNextFileAddress img addr = 0 := by
      unfold EEPROM_getNextFileAddress
      rw [eeprom_read_ok (by omega), h2]
      rfl
    simp only [findLoop, eeprom_read_ok (show addr + 24 ≤ img.length by omega), h2, hnext]
    rw [if_neg hne]
    rfl
  | cons e rest ih =>
    intro addr fuel hch hend hfuel
    obtain ⟨hE, hhdr, hdata, hbound, hch'⟩ := hch
    obtain ⟨hn1, hn2, hn3, hd1, hd2, hd3, hc⟩ := hE
    obtain ⟨f, rfl⟩ : ∃ f, fuel = f + 1 := ⟨fuel - 1, by omega⟩
    have hread : eeprom_read img 24 addr = some (readBytes img addr 24) :=
      eeprom_read_ok (by omega)
    have h16 : (mkNameField e.name).length = 16 := length_mkNameField hn2
    have htake : (entryHdrBytes addr e rest).take 16 = mkNameField e.name := by
      unfold entryHdrBytes
      exact take16_mkHdrBytes h16 _ _ _
    simp only [findLoop, hread, hhdr, htake]
    have hiff := strncmp_mkNameField (fun x hx => by have := hn3 x hx; omega)
      (fun x hx => by have := hfn.2.2 x hx; omega) hn2 hfn.2.1
    have hnexteq : EEPROM_getNextFileAddress img addr =
        (if rest.isEmpty then 0 else addr + 24 + e.data.length) % 65536 := by
      unfold EEPROM_getNextFileAddress
      simp only [hread, hhdr]
      unfold entryHdrBytes
      rw [readBytes_mkHdr_next h16, rd16_le16]
    by_cases hed : e.name = fn
    · rw [if_pos (hiff.mpr hed)]
      unfold entryHdrBytes
      rw [parseHdr_mk h16]
      unfold findSpec
      rw [if_pos hed]
      have e1 : e.data.length % 65536 = e.data.length := Nat.mod_eq_of_lt (by omega)
      have e2 : e.crc % 4294967296 = e.crc := Nat.mod_eq_of_lt hc
      have e3 : (if rest.isEmpty then 0 else addr + 24 + e.data.length) % 65536 =
          (if rest.isEmpty then 0 else addr + 24 + e.data.length) := by
        split_ifs
        · rfl
        · exact Nat.mod_eq_of_lt (by omega)
      rw [e1, e2, e3]
    · rw [if_neg (fun hz => hed (hiff.mp hz))]
      cases rest with
      | nil =>
        rw [hnexteq]
        simp [findSpec, hed]
      | cons e2 rest2 =>
        have hbound2 : addr + 24 + e.data.length + 24 + e2.data.length ≤ img.length :=
          hch'.2.2.2.1
        have hmod : (addr + 24 + e.data.length) % 65536 = addr + 24 + e.data.length :=
          Nat.mod_eq_of_lt (by omega)
        rw [hnexteq]
        simp only [List.isEmpty_cons, Bool.false_eq_true, if_false]
        rw [hmod, if_neg (by omega)]
        unfold findSpec
        rw [if_neg hed]
        exact ih (addr + 24 + e.data.length) f hch' (fun h => by simp at h)
          (by simp at hfuel ⊢; omega)

lemma byteAt_take {l : List Nat} {n i : Nat} (h : i < n) : byteAt (l.take n) i = byteAt l i := by
  simp [byteAt, List.getD, List.getElem?_take, h]

lemma intToU16_ofNat {n : Nat} (h : n < 65536) : intToU16 ((n : Nat) : Int) = n := by
  unfold intToU16
  omega

lemma getHeaderSize_read_good {img : List Nat} {v : Nat} {es : List Entry}
    (himg : goodImage img v es) :
    EEPROM_GetHeaderSize_read img = some ((headerSizeN v : Nat) : Int) := by
  obtain ⟨hv, hmag, hver, hsz1, _, _, _, _, _, _⟩ := himg
  have h12 : (12 : Nat) ≤ img.length := by
    rcases hv with rfl | rfl | rfl <;> simp [headerSizeN] at hsz1 <;> omega
  unfold EEPROM_GetHeaderSize_read
  rw [eeprom_read_ok (by omega)]
  simp only [Option.map_some']
  congr 1
  unfold EEPROM_GetHeaderSize
  rw [readBytes_zero_off]
  have htk : (img.take 12).take 8 = img.take 8 := by
    rw [List.take_take]
    norm_num
  have hmag8 : (img.take 12).take 8 = magicBytes := by
    rw [htk, ← readBytes_zero_off]
    exact hmag
  rw [hmag8]
  rw [if_neg (by decide)]
  have hb : byteAt (img.take 12) 8 = v := by
    rw [byteAt_take (by omega)]
    exact hver
  rw [hb]
  rcases hv with rfl | rfl | rfl <;> rfl

lemma findFile_good {img fn : List Nat} {v : Nat} {es : List Entry}
    (himg : goodImage img v es) (hfn : ValidCName fn) :
    EEPROM_FindFile img fn = some (findSpec fn (headerSizeN v) es) := by
  have hgs := getHeaderSize_read_good himg
  obtain ⟨hv, hmag, hver, hsz1, hsz2, hEs, hch, htail, hnd, hbytes⟩ := himg
  unfold EEPROM_FindFile
  rw [if_neg (by have := hfn.2.1; omega)]
  simp only [hgs]
  rw [if_neg (by omega)]
  have hhs : headerSizeN v < 65536 := by
    rcases hv with rfl | rfl | rfl <;> simp [headerSizeN]
  rw [intToU16_ofNat hhs]
  apply findLoop_good hfn hsz2 es (headerSizeN v) (img.length + 1) hch
  · intro he
    subst he
    constructor
    · omega
    · have : filesEnd (headerSizeN v) ([] : List Entry) = headerSizeN v := by simp [filesEnd]
      rw [this] at htail
      unfold readBytes
      rw [htail, List.take_replicate]
      congr 1
      omega
  · have h1 := length_le_filesEnd es (headerSizeN v)
    have h2 := filesEnd_le_length hch (by omega)
    omega

lemma findSpec_notFound {fn : List Nat} :
    ∀ {es : List Entry} {addr : Nat}, (∀ e ∈ es, e.name ≠ fn) →
      findSpec fn addr es = FindRes.notFound
  | [], _, _ => rfl
  | e :: rest, addr, h => by
    unfold findSpec
    rw [if_neg (h e (by simp))]
    exact findSpec_notFound (fun g hg => h g (by simp [hg]))

lemma findSpec_found {fn : List Nat} {e : Entry} (he : e.name = fn) :
    ∀ (l1 : List Entry) (l2 : List Entry) (addr : Nat), (∀ g ∈ l1, g.name ≠ fn) →
      findSpec fn addr (l1 ++ e :: l2) =
        FindRes.found
          ⟨mkNameField e.name, e.data.length, e.crc,
            if l2.isEmpty then 0 else filesEnd addr l1 + 24 + e.data.length⟩
          (filesEnd addr l1)
  | [], l2, addr, _ => by
    simp only [List.nil_append]
    unfold findSpec
    rw [if_pos he]
    simp [filesEnd]
  | g :: l1, l2, addr, h => by
    simp only [List.cons_append]
    unfold findSpec
    rw [if_neg (h g (by simp))]
    rw [findSpec_found he l1 l2 (addr + 24 + g.data.length) (fun x hx => h x (by simp [hx]))]
    rw [filesEnd_cons]

lemma chainOK_suffix {img : List Nat} :
    ∀ {l1 l2 : List Entry} {addr : Nat}, chainOK img addr (l1 ++ l2) →
      chainOK img (filesEnd addr l1) l2
  | [], l2, addr, h => by simpa [filesEnd] using h
  | e :: l1, l2, addr, h => by
    obtain ⟨_, _, _, _, h'⟩ := h
    rw [filesEnd_cons]
    exact chainOK_suffix h'

lemma nodup_split_ne {es l1 l2 : List Entry} {e : Entry}
    (hnd : (es.map Entry.name).Nodup) (hsplit : es = l1 ++ e :: l2) :
    ∀ g ∈ l1, g.name ≠ e.name := by
  subst hsplit
  intro g hg hcontra
  rw [List.map_append, List.nodup_append] at hnd
  exact hnd.2.2 (List.mem_map_of_mem Entry.name hg) (by simp [hcontra])

lemma toInt16_small {n : Nat} (h : n ≤ 32767) : toInt16 n = (n : Int) := by
  unfold toInt16
  rw [Nat.mod_eq_of_lt (by omega), if_pos (by omega)]

lemma findFile_notFound {img fn : List Nat} {v : Nat} {es : List Entry}
    (himg : goodImage img v es) (hfn : ValidCName fn) (hnot : ∀ e ∈ es, e.name ≠ fn) :
    EEPROM_FindFile img fn = some FindRes.notFound := by
  rw [findFile_good himg hfn, findSpec_notFound hnot]

/-- What `EEPROM_FindFile` returns for the entry `e` of a valid image whose
records are `l1 ++ e :: l2`, along with the byte-level facts about `e`'s
record used by the read/write paths. -/
lemma findFile_found {img fn : List Nat} {v : Nat} {es l1 l2 : List Entry} {e : Entry}
    (himg : goodImage img v es) (hfn : ValidCName fn)
    (hsplit : es = l1 ++ e :: l2) (hname : e.name = fn) :
    EEPROM_FindFile img fn = some (FindRes.found
      ⟨mkNameField e.name, e.data.length, e.crc,
        if l2.isEmpty then 0 else filesEnd (headerSizeN v) l1 + 24 + e.data.length⟩
      (filesEnd (headerSizeN v) l1)) ∧
    readBytes img (filesEnd (headerSizeN v) l1) 24 =
      entryHdrBytes (filesEnd (headerSizeN v) l1) e l2 ∧
    readBytes img (filesEnd (headerSizeN v) l1 + 24) e.data.length = e.data ∧
    filesEnd (headerSizeN v) l1 + 24 + e.data.length ≤ img.length ∧
    EntryOK e := by
  have hch := himg.2.2.2.2.2.2.1
  have hnd := himg.2.2.2.2.2.2.2.2.1
  have hsuf : chainOK img (filesEnd (headerSizeN v) l1) (e :: l2) :=
    chainOK_suffix (hsplit ▸ hch)
  obtain ⟨hE, hhdr, hdata, hbound, _⟩ := hsuf
  refine ⟨?_, hhdr, hdata, hbound, hE⟩
  rw [findFile_good himg hfn, hsplit,
    findSpec_found hname l1 l2 (headerSizeN v)
      (fun g hg => by rw [← hname]; exact nodup_split_ne hnd hsplit g hg)]

/-- Claim C8: `EEPROM_ReadFile` on a valid image: `FILENOTFOUND` when no
record carries the name; `BUFFERNOTVALID` when the caller's buffer is
smaller than the stored `dataSize`; otherwise it copies exactly `dataSize`
bytes from `offset + 24` and returns `(int16_t) dataSize` — which equals
`dataSize` only when `dataSize ≤ 32767`.  `EEPROM_ReadFile` performs no
write, so the image is unchanged. -/
theorem C8_readFile (img fn : List Nat) (v : Nat) (es : List Entry) (bufSize : Nat)
    (himg : goodImage img v es) (hfn : ValidCName fn) (hbs : 0 < bufSize) :
    ((∀ e ∈ es, e.name ≠ fn) → EEPROM_ReadFile img fn bufSize = some (FILENOTFOUND, [])) ∧
    (∀ l1 (e : Entry) l2, es = l1 ++ e :: l2 → e.name = fn →
      (bufSize < e.data.length → EEPROM_ReadFile img fn bufSize = some (BUFFERNOTVALID, [])) ∧
      (e.data.length ≤ bufSize →
        EEPROM_ReadFile img fn bufSize = some (toInt16 e.data.length, e.data) ∧
        (e.data.length ≤ 32767 → toInt16 e.data.length = (e.data.length : Int)))) := by
  constructor
  · intro hnot
    unfold EEPROM_ReadFile
    rw [if_neg (by have := hfn.2.1; omega), if_neg (by omega)]
    simp only [findFile_notFound himg hfn hnot]
  · intro l1 e l2 hsplit hname
    obtain ⟨hff, hhdr, hdata, hbound, hE⟩ := findFile_found himg hfn hsplit hname
    constructor
    · intro hsmall
      unfold EEPROM_ReadFile
      rw [if_neg (by have := hfn.2.1; omega), if_neg (by omega)]
      simp only [hff]
      rw [if_pos (by simpa using hsmall)]
    · intro hfits
      refine ⟨?_, fun h15 => toInt16_small h15⟩
      unfold EEPROM_ReadFile
      rw [if_neg (by have := hfn.2.1; omega), if_neg (by omega)]
      simp only [hff]
      rw [if_neg (by simpa using (by omega : ¬ e.data.length > bufSize))]
      rw [eeprom_read_ok (by simpa using hbound)]
      simp only [hdata]
      rw [if_pos (by simpa using hE.2.2.2.1)]

/-! ### The free-slot walk of `EEPROM_AddFile` on valid images -/

lemma byteAt_writeBytes_before {l bs : List Nat} {off i : Nat} (h : i < off) (h2 : off ≤ l.length) :
    byteAt (writeBytes l off bs) i = byteAt l i := by
  simp only [byteAt, writeBytes, List.getD, List.get?_eq_getElem?]
  rw [List.getElem?_append_left (by simp; omega),
    List.getElem?_append_left (by simp; omega), List.getElem?_take]
  rw [if_pos (by omega)]

lemma filesEnd_append (addr : Nat) (l1 l2 : List Entry) :
    filesEnd addr (l1 ++ l2) = filesEnd (filesEnd addr l1) l2 := by
  simp [filesEnd]
  omega

lemma filesEnd_ge (addr : Nat) (es : List Entry) : addr ≤ filesEnd addr es := by
  simp [filesEnd]

lemma lastAddr_concat : ∀ (l : List Entry) (e : Entry) (addr : Nat),
    lastAddr addr (l ++ [e]) = filesEnd addr l
  | [], e, addr => by simp [lastAddr, filesEnd]
  | g :: l, e, addr => by
    have h1 : lastAddr addr (g :: l ++ [e]) = lastAddr (addr + 24 + g.data.length) (l ++ [e]) := by
      cases l <;> rfl
    rw [h1, lastAddr_concat l e (addr + 24 + g.data.length), filesEnd_cons]

lemma entryHdrBytes_congr {addr : Nat} {e : Entry} {r1 r2 : List Entry}
    (h : r1.isEmpty = r2.isEmpty) : entryHdrBytes addr e r1 = entryHdrBytes addr e r2 := by
  unfold entryHdrBytes
  rw [h]

lemma mkNameField_bytes_lt {fn : List Nat} (h : ∀ b ∈ fn, 0 < b ∧ b < 255) :
    ∀ b ∈ mkNameField fn, b < 256 := by
  intro b hb
  unfold mkNameField at hb
  rcases List.mem_append.1 hb with hb | hb
  · have := h b hb; omega
  · rw [List.eq_of_mem_replicate hb]; omega

lemma mkHdrBytes_bytes_lt {n16 : List Nat} (h : ∀ b ∈ n16, b < 256) (ds crc nx : Nat) :
    ∀ b ∈ mkHdrBytes n16 ds crc nx, b < 256 := by
  intro b hb
  unfold mkHdrBytes at hb
  rcases List.mem_append.1 hb with hb | hb
  · rcases List.mem_append.1 hb with hb | hb
    · rcases List.mem_append.1 hb with hb | hb
      · exact h b hb
      · exact le16_bytes_lt ds b hb
    · exact le32_bytes_lt crc b hb
  · exact le16_bytes_lt nx b hb

lemma addLoop_good {img : List Nat} (hlen : img.length ≤ 65535) :
    ∀ (es : List Entry) (addr prev fuel : Nat),
      chainOK img addr es →
      (es = [] → addr + 24 ≤ img.length ∧ readBytes img addr 24 = List.replicate 24 0) →
      0 < addr →
      es.length + 1 ≤ fuel →
      addLoop img addr prev fuel =
        some (Sum.inr (if es.isEmpty then (prev, addr) else (lastAddr addr es, 0))) := by
  intro es
  induction es with
  | nil =>
    intro addr prev fuel _ hend hpos hfuel
    obtain ⟨h1, h2⟩ := hend rfl
    by_cases hcond : (wordIsEmpty addr || !(addr + 24 < img.length)) = true
    · unfold addLoop
      rw [if_pos hcond]
      simp [lastAddr]
    · obtain ⟨f, rfl⟩ : ∃ f, fuel = f + 1 := ⟨fuel - 1, by omega⟩
      have hr : addr + 24 ≤ img.length := h1
      unfold addLoop
      rw [if_neg hcond, eeprom_read_ok (by omega)]
      simp only [h2]
      have hz : byteAt (List.replicate 24 (0 : Nat)) 0 = 0 := by decide
      rw [if_pos (by rw [hz]; simp [byteIsEmpty])]
      simp [lastAddr]
  | cons e rest ih =>
    intro addr prev fuel hch hend hpos hfuel
    obtain ⟨hE, hhdr, hdata, hbound, hch'⟩ := hch
    obtain ⟨hn1, hn2, hn3, hd1, hd2, hd3, hc⟩ := hE
    obtain ⟨f, rfl⟩ : ∃ f, fuel = f + 1 := ⟨fuel - 1, by omega⟩
    have h16 : (mkNameField e.name).length = 16 := length_mkNameField hn2
    have hcond : ¬((wordIsEmpty addr || !(addr + 24 < img.length)) = true) := by
      simp only [wordIsEmpty, Bool.or_eq_true, Bool.not_eq_true', decide_eq_true_eq]
      push_neg
      refine ⟨⟨by omega, by omega⟩, by simp; omega⟩
    unfold addLoop
    rw [if_neg hcond, eeprom_read_ok (by omega)]
    simp only [hhdr]
    have hb0 : byteIsEmpty (byteAt (entryHdrBytes addr e rest) 0) = false := by
      obtain ⟨c, t, hct⟩ := List.exists_cons_of_ne_nil hn1
      have hcrange := hn3 c (by rw [hct]; simp)
      have hb : byteAt (entryHdrBytes addr e rest) 0 = c := by
        unfold entryHdrBytes mkHdrBytes
        rw [byteAt_append (by simp [h16, length_le16, length_le32]),
          byteAt_append (by simp [h16, length_le16]),
          byteAt_append (by omega)]
        rw [hct]
        simp [mkNameField, byteAt]
      rw [hb]
      simp only [byteIsEmpty, Bool.or_eq_false_iff, decide_eq_false_iff_not]
      omega
    have hparse : parseHdr (entryHdrBytes addr e rest) =
        ⟨mkNameField e.name, e.data.length, e.crc,
          if rest.isEmpty then 0 else addr + 24 + e.data.length⟩ := by
      unfold entryHdrBytes
      rw [parseHdr_mk h16]
      congr 1
      · exact Nat.mod_eq_of_lt (by omega)
      · exact Nat.mod_eq_of_lt (by omega)
      · split_ifs
        · rfl
        · exact Nat.mod_eq_of_lt (by omega)
    rw [hparse]
    have hds : wordIsEmpty e.data.length = false := by
      simp only [wordIsEmpty, Bool.or_eq_false_iff, decide_eq_false_iff_not]
      omega
    have hw0 : wordIsEmpty 0 = true := by decide
    cases rest with
    | nil =>
      rw [if_neg (by simp [hb0, hds, hw0])]
      have hstop : addLoop img 0 addr f = some (Sum.inr (addr, 0)) := by
        unfold addLoop
        rw [if_pos (by simp [wordIsEmpty])]
      simp only [List.isEmpty_nil, if_pos]
      rw [hstop]
      simp [lastAddr]
    | cons e2 rest2 =>
      have hbound2 : addr + 24 + e.data.length + 24 + e2.data.length ≤ img.length :=
        hch'.2.2.2.1
      have hnextw : wordIsEmpty (addr + 24 + e.data.length) = false := by
        simp only [wordIsEmpty, Bool.or_eq_false_iff, decide_eq_false_iff_not]
        omega
      rw [if_neg (by
        simp only [List.isEmpty_cons, Bool.false_eq_true, if_false, hb0, hds, hnextw,
          Bool.false_or, Bool.not_false, Bool.true_and, Bool.or_eq_true, decide_eq_true_eq]
        omega)]
      simp only [List.isEmpty_cons, Bool.false_eq_true, if_false]
      rw [ih (addr + 24 + e.data.length) addr f hch' (by simp) (by omega)
        (by simp at hfuel ⊢; omega)]
      have : lastAddr addr (e :: e2 :: rest2) =
          lastAddr (addr + 24 + e.data.length) (e2 :: rest2) := rfl
      simp [this]

/-! ### Chain preservation under writes -/

lemma chainOK_frame {img img' : List Nat} (hlen : img'.length = img.length) :
    ∀ (es : List Entry) (addr : Nat), chainOK img addr es →
      (∀ a n, addr ≤ a → a + n ≤ filesEnd addr es → readBytes img' a n = readBytes img a n) →
      chainOK img' addr es
  | [], _, _, _ => trivial
  | e :: rest, addr, hch, hframe => by
    obtain ⟨hE, hhdr, hdata, hbound, hch'⟩ := hch
    have hspan : addr + 24 + e.data.length ≤ filesEnd addr (e :: rest) := by
      rw [filesEnd_cons]
      exact filesEnd_ge _ _
    refine ⟨hE, ?_, ?_, by omega, ?_⟩
    · rw [hframe addr 24 (le_refl _) (by omega)]
      exact hhdr
    · rw [hframe (addr + 24) e.data.length (by omega) (by omega)]
      exact hdata
    · exact chainOK_frame hlen rest (addr + 24 + e.data.length) hch'
        (fun a n ha hn => hframe a n (by omega) (by rw [filesEnd_cons]; omega))

lemma chainOK_extend {img img' : List Nat} {e enew : Entry} (hlen : img'.length = img.length) :
    ∀ (l : List Entry) (addr : Nat),
      chainOK img addr (l ++ [e]) →
      (∀ a n, a + n ≤ filesEnd addr l → readBytes img' a n = readBytes img a n) →
      readBytes img' (filesEnd addr l) 24 = entryHdrBytes (filesEnd addr l) e [enew] →
      readBytes img' (filesEnd addr l + 24) e.data.length = e.data →
      chainOK img' (filesEnd addr (l ++ [e])) [enew] →
      chainOK img' addr (l ++ [e, enew])
  | [], addr, hch, hframe, hhdr', hdata', hnew => by
    obtain ⟨hE, hhdr, hdata, hbound, _⟩ := hch
    have hfe : filesEnd addr ([] : List Entry) = addr := by simp [filesEnd]
    have hfe2 : filesEnd addr [e] = addr + 24 + e.data.length := by
      simp [filesEnd, entrySpan]
      omega
    refine ⟨hE, ?_, ?_, by omega, ?_⟩
    · rw [← hfe]
      exact hhdr'
    · rw [show addr + 24 = filesEnd addr ([] : List Entry) + 24 by rw [hfe]]
      exact hdata'
    · have := hnew
      rw [show filesEnd addr ([] ++ [e]) = addr + 24 + e.data.length by
        simpa [hfe2] using rfl] at this
      exact this
  | g :: l, addr, hch, hframe, hhdr', hdata', hnew => by
    obtain ⟨hgE, hghdr, hgdata, hgbound, hch'⟩ := hch
    have hfeg : filesEnd addr (g :: l) = filesEnd (addr + 24 + g.data.length) l :=
      filesEnd_cons addr g l
    have hge1 : addr + 24 + g.data.length ≤ filesEnd addr (g :: l) := by
      rw [hfeg]
      exact filesEnd_ge _ _
    have hx : filesEnd addr (g :: (l ++ [e])) = filesEnd (addr + 24 + g.data.length) (l ++ [e]) :=
      filesEnd_cons addr g (l ++ [e])
    refine ⟨hgE, ?_, ?_, by omega, ?_⟩
    · rw [hframe addr 24 (by omega), hghdr]
      exact entryHdrBytes_congr (by cases l <;> rfl)
    · rw [hframe (addr + 24) g.data.length (by omega)]
      exact hgdata
    · exact chainOK_extend hlen l (addr + 24 + g.data.length) hch'
        (fun a n hn => hframe a n (by rw [hfeg]; exact hn))
        (by rw [← hfeg]; exact hhdr') (by rw [← hfeg]; exact hdata')
        (by rw [← hx]; exact hnew)

lemma headerSizeN_ge (v : Nat) : 256 ≤ headerSizeN v := by
  unfold headerSizeN
  split_ifs <;> omega

lemma headerSizeN_lt (v : Nat) : headerSizeN v < 65536 := by
  unfold headerSizeN
  split_ifs <;> omega

/-- Behaviour of `EEPROM_AddFile` for a fresh name on a valid image holding
no files: the capacity check against `files_start + 24 + dataSize` and, on
success, the resulting image. -/
lemma addFile_nil {img fn data : List Nat} {v : Nat}
    (himg : goodImage img v ([] : List Entry)) (hfn : ValidCName fn)
    (hd0 : data ≠ []) (hdlen : data.length ≤ 65534) (hdb : ∀ b ∈ data, b < 256) :
    (img.length ≤ headerSizeN v + 24 + data.length →
      EEPROM_AddFile img fn data = some (NOTENOUGHSPACE, img)) ∧
    (headerSizeN v + 24 + data.length < img.length →
      EEPROM_AddFile img fn data =
        some (((data.length % 32767 : Nat) : Int),
          writeBytes (writeBytes img (headerSizeN v)
              (mkHdrBytes (mkNameField fn) data.length (zcrc32 data) 0))
            (headerSizeN v + 24) data)) := by
  have hgs := getHeaderSize_read_good himg
  have hff := findFile_notFound himg hfn (by simp)
  obtain ⟨hv, hmag, hver, hsz1, hsz2, _, hch, htail, hnd, hbytes⟩ := himg
  have hfe : filesEnd (headerSizeN v) ([] : List Entry) = headerSizeN v := by simp [filesEnd]
  rw [hfe] at htail
  have hzeros : readBytes img (headerSizeN v) 24 = List.replicate 24 0 := by
    unfold readBytes
    rw [htail, List.take_replicate]
    congr 1
    omega
  have hwalk : addLoop img (headerSizeN v) 0 (img.length + 1) = some (Sum.inr (0, headerSizeN v)) := by
    have h := addLoop_good hsz2 [] (headerSizeN v) 0 (img.length + 1) trivial
      (fun _ => ⟨by omega, hzeros⟩) (by have := headerSizeN_ge v; omega) (by simp)
    simpa using h
  have hmodlen : data.length % 65536 = data.length := Nat.mod_eq_of_lt (by omega)
  have hname16 : (mkNameField fn).take 16 = mkNameField fn :=
    List.take_of_length_le (by rw [length_mkNameField hfn.2.1])
  have h24 : (mkHdrBytes (mkNameField fn) data.length (zcrc32 data) 0).length = 24 :=
    length_mkHdrBytes (length_mkNameField hfn.2.1) _ _ _
  constructor
  · intro hcap
    unfold EEPROM_AddFile
    rw [if_neg (by have := hfn.2.1; omega),
      if_neg (by intro hzz; exact hd0 (List.eq_nil_of_length_eq_zero hzz))]
    simp only [hgs]
    rw [intToU16_ofNat (headerSizeN_lt v)]
    simp only [hff, hwalk, eq_self_iff_true, not_true, if_false, ne_eq, not_true_eq_false,
      ite_false]
    rw [hmodlen]
    rw [if_pos (by omega)]
  · intro hcap
    unfold EEPROM_AddFile
    rw [if_neg (by have := hfn.2.1; omega),
      if_neg (by intro hzz; exact hd0 (List.eq_nil_of_length_eq_zero hzz))]
    simp only [hgs]
    rw [intToU16_ofNat (headerSizeN_lt v)]
    simp only [hff, hwalk, eq_self_iff_true, not_true, if_false, ne_eq, not_true_eq_false,
      ite_false]
    rw [hmodlen]
    rw [if_neg (by omega)]
    rw [hname16, List.take_length]
    have hw1 : eeprom_write img (mkHdrBytes (mkNameField fn) data.length (zcrc32 data) 0)
        (headerSizeN v) =
        some (writeBytes img (headerSizeN v)
          (mkHdrBytes (mkNameField fn) data.length (zcrc32 data) 0)) :=
      eeprom_write_ok (by rw [h24]; omega)
    have hw2 : eeprom_write (writeBytes img (headerSizeN v)
          (mkHdrBytes (mkNameField fn) data.length (zcrc32 data) 0)) data (headerSizeN v + 24) =
        some (writeBytes (writeBytes img (headerSizeN v)
          (mkHdrBytes (mkNameField fn) data.length (zcrc32 data) 0)) (headerSizeN v + 24) data) :=
      eeprom_write_ok (by rw [length_writeBytes (by rw [h24]; omega)]; omega)
    simp only [hw1, hw2]

/-- Behaviour of `EEPROM_AddFile` for a fresh name on a valid image whose
record list is `l ++ [e]`: the walk stops at the last record `e`, relinks its
`nextFileAddress` to the end of the chain, and appends the new record there
if the capacity check passes. -/
lemma addFile_concat {img fn data : List Nat} {v : Nat} {l : List Entry} {e : Entry}
    (himg : goodImage img v (l ++ [e])) (hfn : ValidCName fn)
    (hnot : ∀ g ∈ l ++ [e], g.name ≠ fn)
    (hd0 : data ≠ []) (hdlen : data.length ≤ 65534) (hdb : ∀ b ∈ data, b < 256) :
    (img.length ≤ filesEnd (headerSizeN v) (l ++ [e]) + 24 + data.length →
      EEPROM_AddFile img fn data = some (NOTENOUGHSPACE, img)) ∧
    (filesEnd (headerSizeN v) (l ++ [e]) + 24 + data.length < img.length →
      EEPROM_AddFile img fn data =
        some (((data.length % 32767 : Nat) : Int),
          writeBytes (writeBytes (writeBytes img (filesEnd (headerSizeN v) l)
              (mkHdrBytes (mkNameField e.name) e.data.length e.crc
                (filesEnd (headerSizeN v) (l ++ [e]))))
            (filesEnd (headerSizeN v) (l ++ [e]))
              (mkHdrBytes (mkNameField fn) data.length (zcrc32 data) 0))
            (filesEnd (headerSizeN v) (l ++ [e]) + 24) data)) := by
  have hgs := getHeaderSize_read_good himg
  have hff := findFile_notFound himg hfn hnot
  obtain ⟨hv, hmag, hver, hsz1, hsz2, hEs, hch, htail, hnd, hbytes⟩ := himg
  have hsge := headerSizeN_ge v
  have hsuf : chainOK img (filesEnd (headerSizeN v) l) [e] := chainOK_suffix hch
  obtain ⟨hE, hhdr, hdata, hbound, _⟩ := hsuf
  obtain ⟨hn1, hn2, hn3, hd1, hd2, hd3, hc⟩ := hE
  have h16 : (mkNameField e.name).length = 16 := length_mkNameField hn2
  have hlage : headerSizeN v ≤ filesEnd (headerSizeN v) l := filesEnd_ge _ _
  have hfeval : filesEnd (headerSizeN v) (l ++ [e]) =
      filesEnd (headerSizeN v) l + 24 + e.data.length := by
    rw [filesEnd_append]
    simp [filesEnd, entrySpan]
    omega
  have hlen_le : (l ++ [e]).length ≤ img.length := by
    have h1 := length_le_filesEnd (l ++ [e]) (headerSizeN v)
    have h2 := filesEnd_le_length hch (by omega)
    omega
  have hwalk : addLoop img (headerSizeN v) 0 (img.length + 1) =
      some (Sum.inr (filesEnd (headerSizeN v) l, 0)) := by
    have h := addLoop_good hsz2 (l ++ [e]) (headerSizeN v) 0 (img.length + 1) hch
      (fun hcontra => absurd hcontra (by simp)) (by omega) (by omega)
    rw [h]
    congr 2
    rw [if_neg (by simp), lastAddr_concat]
  have hmodlen : data.length % 65536 = data.length := Nat.mod_eq_of_lt (by omega)
  have hparse : parseHdr (entryHdrBytes (filesEnd (headerSizeN v) l) e []) =
      ⟨mkNameField e.name, e.data.length, e.crc, 0⟩ := by
    unfold entryHdrBytes
    rw [parseHdr_mk h16]
    congr 1
    · exact Nat.mod_eq_of_lt (by omega)
    · exact Nat.mod_eq_of_lt (by omega)
  have hla0 : ¬filesEnd (headerSizeN v) l = 0 := by omega
  have hmodfe : (filesEnd (headerSizeN v) l + 24 + e.data.length) % 65536 =
      filesEnd (headerSizeN v) l + 24 + e.data.length := Nat.mod_eq_of_lt (by omega)
  constructor
  · intro hcap
    unfold EEPROM_AddFile
    rw [if_neg (by have := hfn.2.1; omega),
      if_neg (by intro hzz; exact hd0 (List.eq_nil_of_length_eq_zero hzz))]
    simp only [hgs]
    rw [intToU16_ofNat (headerSizeN_lt v)]
    simp only [hff, hwalk]
    rw [if_pos hla0]
    simp only [eeprom_read_ok (show filesEnd (headerSizeN v) l + 24 ≤ img.length by omega),
      hhdr, hparse, if_pos hla0]
    rw [hmodlen, hmodfe]
    rw [if_pos (by omega)]
  · intro hcap
    unfold EEPROM_AddFile
    rw [if_neg (by have := hfn.2.1; omega),
      if_neg (by intro hzz; exact hd0 (List.eq_nil_of_length_eq_zero hzz))]
    simp only [hgs]
    rw [intToU16_ofNat (headerSizeN_lt v)]
    simp only [hff, hwalk]
    rw [if_pos hla0]
    simp only [eeprom_read_ok (show filesEnd (headerSizeN v) l + 24 ≤ img.length by omega),
      hhdr, hparse, if_pos hla0]
    rw [hmodlen, hmodfe]
    rw [if_neg (by omega)]
    rw [hfeval]
    have hname16 : (mkNameField fn).take 16 = mkNameField fn :=
      List.take_of_length_le (by rw [length_mkNameField hfn.2.1])
    rw [hname16, List.take_length]
    have h24r : (mkHdrBytes (mkNameField e.name) e.data.length e.crc
        (filesEnd (headerSizeN v) l + 24 + e.data.length)).length = 24 :=
      length_mkHdrBytes h16 _ _ _
    have h24n : (mkHdrBytes (mkNameField fn) data.length (zcrc32 data) 0).length = 24 :=
      length_mkHdrBytes (length_mkNameField hfn.2.1) _ _ _
    have hwr1 : eeprom_write img (serHdr ⟨mkNameField e.name, e.data.length, e.crc,
        filesEnd (headerSizeN v) l + 24 + e.data.length⟩) (filesEnd (headerSizeN v) l) =
        some (writeBytes img (filesEnd (headerSizeN v) l)
          (mkHdrBytes (mkNameField e.name) e.data.length e.crc
            (filesEnd (headerSizeN v) l + 24 + e.data.length))) := by
      rw [serHdr_mk h16]
      exact eeprom_write_ok (by rw [h24r]; omega)
    simp only [hwr1, Option.getD_some]
    have hwr2 : eeprom_write (writeBytes img (filesEnd (headerSizeN v) l)
          (mkHdrBytes (mkNameField e.name) e.data.length e.crc
            (filesEnd (headerSizeN v) l + 24 + e.data.length)))
        (mkHdrBytes (mkNameField fn) data.length (zcrc32 data) 0)
        (filesEnd (headerSizeN v) l + 24 + e.data.length) =
        some (writeBytes (writeBytes img (filesEnd (headerSizeN v) l)
          (mkHdrBytes (mkNameField e.name) e.data.length e.crc
            (filesEnd (headerSizeN v) l + 24 + e.data.length)))
          (filesEnd (headerSizeN v) l + 24 + e.data.length)
          (mkHdrBytes (mkNameField fn) data.length (zcrc32 data) 0)) :=
      eeprom_write_ok (by rw [h24n, length_writeBytes (by rw [h24r]; omega)]; omega)
    simp only [hwr2]
    have hwr3 : eeprom_write (writeBytes (writeBytes img (filesEnd (headerSizeN v) l)
          (mkHdrBytes (mkNameField e.name) e.data.length e.crc
            (filesEnd (headerSizeN v) l + 24 + e.data.length)))
          (filesEnd (headerSizeN v) l + 24 + e.data.length)
          (mkHdrBytes (mkNameField fn) data.length (zcrc32 data) 0))
        data (filesEnd (headerSizeN v) l + 24 + e.data.length + 24) =
        some (writeBytes (writeBytes (writeBytes img (filesEnd (headerSizeN v) l)
          (mkHdrBytes (mkNameField e.name) e.data.length e.crc
            (filesEnd (headerSizeN v) l + 24 + e.data.length)))
          (filesEnd (headerSizeN v) l + 24 + e.data.length)
          (mkHdrBytes (mkNameField fn) data.length (zcrc32 data) 0))
          (filesEnd (headerSizeN v) l + 24 + e.data.length + 24) data) :=
      eeprom_write_ok (by
        rw [length_writeBytes (by
            rw [h24n, length_writeBytes (by rw [h24r]; omega)]
            omega),
          length_writeBytes (by rw [h24r]; omega)]
        omega)
    simp only [hwr3]

lemma addResult_nil_good {img fn data : List Nat} {v : Nat}
    (himg : goodImage img v ([] : List Entry)) (hfn : ValidCName fn)
    (hd0 : data ≠ []) (hdlen : data.length ≤ 65534) (hdb : ∀ b ∈ data, b < 256)
    (hcap : headerSizeN v + 24 + data.length < img.length) :
    goodImage (writeBytes (writeBytes img (headerSizeN v)
        (mkHdrBytes (mkNameField fn) data.length (zcrc32 data) 0))
      (headerSizeN v + 24) data) v [⟨fn, data, zcrc32 data⟩] := by
  obtain ⟨hv, hmag, hver, hsz1, hsz2, _, hch, htail, hnd, hbytes⟩ := himg
  have hsge := headerSizeN_ge v
  have hfe : filesEnd (headerSizeN v) ([] : List Entry) = headerSizeN v := by simp [filesEnd]
  rw [hfe] at htail
  have hdpos : 0 < data.length := by
    cases data with
    | nil => exact absurd rfl hd0
    | cons a t => simp
  have h24 : (mkHdrBytes (mkNameField fn) data.length (zcrc32 data) 0).length = 24 :=
    length_mkHdrBytes (length_mkNameField hfn.2.1) _ _ _
  have hlen1 : (writeBytes img (headerSizeN v)
      (mkHdrBytes (mkNameField fn) data.length (zcrc32 data) 0)).length = img.length :=
    length_writeBytes (by rw [h24]; omega)
  have hlen2 : (writeBytes (writeBytes img (headerSizeN v)
      (mkHdrBytes (mkNameField fn) data.length (zcrc32 data) 0))
      (headerSizeN v + 24) data).length = img.length := by
    rw [length_writeBytes (by rw [hlen1]; omega), hlen1]
  have hEnew : EntryOK ⟨fn, data, zcrc32 data⟩ :=
    ⟨hfn.1, hfn.2.1, hfn.2.2, hdpos, hdlen, hdb, zcrc32_lt data⟩
  have hfe2 : filesEnd (headerSizeN v) [(⟨fn, data, zcrc32 data⟩ : Entry)] =
      headerSizeN v + 24 + data.length := by
    simp [filesEnd, entrySpan]
    omega
  refine ⟨hv, ?_, ?_, by omega, by omega, ?_, ?_, ?_, by simp, ?_⟩
  · rw [readBytes_writeBytes_before (by omega) (by rw [hlen1]; omega),
      readBytes_writeBytes_before (by omega) (by omega)]
    exact hmag
  · rw [byteAt_writeBytes_before (by omega) (by rw [hlen1]; omega),
      byteAt_writeBytes_before (by omega) (by omega)]
    exact hver
  · intro x hx
    simp at hx
    rw [hx]
    exact hEnew
  · refine ⟨hEnew, ?_, ?_, by simp; omega, trivial⟩
    · have hform : entryHdrBytes (headerSizeN v) (⟨fn, data, zcrc32 data⟩ : Entry) [] =
          mkHdrBytes (mkNameField fn) data.length (zcrc32 data) 0 := rfl
      rw [hform, readBytes_writeBytes_before (by omega) (by rw [hlen1]; omega)]
      rw [show (24 : Nat) = (mkHdrBytes (mkNameField fn) data.length (zcrc32 data) 0).length
          from h24.symm]
      exact readBytes_writeBytes_self (by rw [h24]; omega)
    · rw [show data.length = (data : List Nat).length from rfl]
      exact readBytes_writeBytes_self (by rw [hlen1]; omega)
  · rw [hfe2, hlen2]
    rw [drop_writeBytes_after (by omega) (by rw [hlen1]; omega)]
    rw [drop_writeBytes_after (by rw [h24]; omega) (by rw [h24]; omega)]
    have hdd : List.drop (headerSizeN v + 24 + data.length) img =
        List.drop (24 + data.length) (List.drop (headerSizeN v) img) := by
      rw [List.drop_drop]
      congr 1
      omega
    rw [hdd, htail, List.drop_replicate]
    congr 1
    omega
  · intro b hb
    exact writeBytes_bytes_lt
      (writeBytes_bytes_lt hbytes
        (mkHdrBytes_bytes_lt (mkNameField_bytes_lt hfn.2.2) _ _ _))
      hdb b hb
lemma addResult_concat_good {img fn data : List Nat} {v : Nat} {l : List Entry} {e : Entry}
    (himg : goodImage img v (l ++ [e])) (hfn : ValidCName fn)
    (hnot : ∀ g ∈ l ++ [e], g.name ≠ fn)
    (hd0 : data ≠ []) (hdlen : data.length ≤ 65534) (hdb : ∀ b ∈ data, b < 256)
    (hcap : filesEnd (headerSizeN v) (l ++ [e]) + 24 + data.length < img.length) :
    goodImage
      (writeBytes (writeBytes (writeBytes img (filesEnd (headerSizeN v) l)
          (mkHdrBytes (mkNameField e.name) e.data.length e.crc
            (filesEnd (headerSizeN v) (l ++ [e]))))
        (filesEnd (headerSizeN v) (l ++ [e]))
          (mkHdrBytes (mkNameField fn) data.length (zcrc32 data) 0))
        (filesEnd (headerSizeN v) (l ++ [e]) + 24) data)
      v (l ++ [e, ⟨fn, data, zcrc32 data⟩]) := by
  obtain ⟨hv, hmag, hver, hsz1, hsz2, hEs, hch, htail, hnd, hbytes⟩ := himg
  have hsge := headerSizeN_ge v
  have hsuf : chainOK img (filesEnd (headerSizeN v) l) [e] := chainOK_suffix hch
  obtain ⟨hE, hhdr, hdata, hbound, _⟩ := hsuf
  obtain ⟨hn1, hn2, hn3, hd1, hd2, hd3, hcr⟩ := hE
  have h16 : (mkNameField e.name).length = 16 := length_mkNameField hn2
  have hlage : headerSizeN v ≤ filesEnd (headerSizeN v) l := filesEnd_ge _ _
  have hfeval : filesEnd (headerSizeN v) (l ++ [e]) =
      filesEnd (headerSizeN v) l + 24 + e.data.length := by
    rw [filesEnd_append]
    simp [filesEnd, entrySpan]
    omega
  have hdpos : 0 < data.length := by
    cases data with
    | nil => exact absurd rfl hd0
    | cons a t => simp
  have h24r : (mkHdrBytes (mkNameField e.name) e.data.length e.crc
      (filesEnd (headerSizeN v) (l ++ [e]))).length = 24 := length_mkHdrBytes h16 _ _ _
  have h24n : (mkHdrBytes (mkNameField fn) data.length (zcrc32 data) 0).length = 24 :=
    length_mkHdrBytes (length_mkNameField hfn.2.1) _ _ _
  have hlen1 : (writeBytes img (filesEnd (headerSizeN v) l)
      (mkHdrBytes (mkNameField e.name) e.data.length e.crc
        (filesEnd (headerSizeN v) (l ++ [e])))).length = img.length :=
    length_writeBytes (by rw [h24r]; omega)
  have hlen2 : (writeBytes (writeBytes img (filesEnd (headerSizeN v) l)
      (mkHdrBytes (mkNameField e.name) e.data.length e.crc
        (filesEnd (headerSizeN v) (l ++ [e]))))
      (filesEnd (headerSizeN v) (l ++ [e]))
      (mkHdrBytes (mkNameField fn) data.length (zcrc32 data) 0)).length = img.length := by
    rw [length_writeBytes (by rw [h24n, hlen1]; omega), hlen1]
  have hlen3 : (writeBytes (writeBytes (writeBytes img (filesEnd (headerSizeN v) l)
      (mkHdrBytes (mkNameField e.name) e.data.length e.crc
        (filesEnd (headerSizeN v) (l ++ [e]))))
      (filesEnd (headerSizeN v) (l ++ [e]))
        (mkHdrBytes (mkNameField fn) data.length (zcrc32 data) 0))
      (filesEnd (headerSizeN v) (l ++ [e]) + 24) data).length = img.length := by
    rw [length_writeBytes (by rw [hlen2]; omega), hlen2]
  have hEnew : EntryOK ⟨fn, data, zcrc32 data⟩ :=
    ⟨hfn.1, hfn.2.1, hfn.2.2, hdpos, hdlen, hdb, zcrc32_lt data⟩
  have hframe : ∀ a n, a + n ≤ filesEnd (headerSizeN v) l →
      readBytes (writeBytes (writeBytes (writeBytes img (filesEnd (headerSizeN v) l)
          (mkHdrBytes (mkNameField e.name) e.data.length e.crc
            (filesEnd (headerSizeN v) (l ++ [e]))))
        (filesEnd (headerSizeN v) (l ++ [e]))
          (mkHdrBytes (mkNameField fn) data.length (zcrc32 data) 0))
        (filesEnd (headerSizeN v) (l ++ [e]) + 24) data) a n = readBytes img a n := by
    intro a n han
    rw [readBytes_writeBytes_before (by omega) (by rw [hlen2]; omega),
      readBytes_writeBytes_before (by omega) (by rw [hlen1]; omega),
      readBytes_writeBytes_before (by omega) (by omega)]
  have hfe2 : filesEnd (headerSizeN v) (l ++ [e, (⟨fn, data, zcrc32 data⟩ : Entry)]) =
      filesEnd (headerSizeN v) (l ++ [e]) + 24 + data.length := by
    rw [filesEnd_append, filesEnd_append]
    simp [filesEnd, entrySpan]
    omega
  refine ⟨hv, ?_, ?_, by omega, by omega, ?_, ?_, ?_, ?_, ?_⟩
  · rw [hframe 0 8 (by omega)]
    exact hmag
  · rw [byteAt_writeBytes_before (by omega) (by rw [hlen2]; omega),
      byteAt_writeBytes_before (by omega) (by rw [hlen1]; omega),
      byteAt_writeBytes_before (by omega) (by omega)]
    exact hver
  · intro x hx
    rcases List.mem_append.1 hx with hx | hx
    · exact hEs x (List.mem_append_left _ hx)
    · rcases List.mem_cons.1 hx with rfl | hx
      · exact hEs x (by simp)
      · rcases List.mem_cons.1 hx with rfl | hx
        · exact hEnew
        · simp at hx
  · refine chainOK_extend hlen3 l (headerSizeN v) hch hframe ?_ ?_ ?_
    · rw [readBytes_writeBytes_before (by omega) (by rw [hlen2]; omega),
        readBytes_writeBytes_before (by omega) (by rw [hlen1]; omega)]
      rw [show (24 : Nat) = (mkHdrBytes (mkNameField e.name) e.data.length e.crc
          (filesEnd (headerSizeN v) (l ++ [e]))).length from h24r.symm]
      rw [readBytes_writeBytes_self (by rw [h24r]; omega)]
      rw [hfeval]
      unfold entryHdrBytes
      simp
    · rw [readBytes_writeBytes_before (by omega) (by rw [hlen2]; omega),
        readBytes_writeBytes_before (by omega) (by rw [hlen1]; omega),
        readBytes_writeBytes_after (by rw [h24r]) (by rw [h24r]; omega)]
      exact hdata
    · refine ⟨hEnew, ?_, ?_, ?_, trivial⟩
      · rw [readBytes_writeBytes_before (by omega) (by rw [hlen2]; omega)]
        rw [show (24 : Nat) = (mkHdrBytes (mkNameField fn) data.length
            (zcrc32 data) 0).length from h24n.symm]
        rw [readBytes_writeBytes_self (by rw [h24n, hlen1]; omega)]
        unfold entryHdrBytes
        simp
      · rw [show data.length = (data : List Nat).length from rfl]
        exact readBytes_writeBytes_self (by rw [hlen2]; omega)
      · simp
        omega
  · rw [hfe2, hlen3]
    rw [drop_writeBytes_after (by omega) (by rw [hlen2]; omega)]
    rw [drop_writeBytes_after (by rw [h24n]; omega) (by rw [h24n, hlen1]; omega)]
    rw [drop_writeBytes_after (by rw [h24r]; omega) (by rw [h24r]; omega)]
    have hdd : List.drop (filesEnd (headerSizeN v) (l ++ [e]) + 24 + data.length) img =
        List.drop (24 + data.length) (List.drop (filesEnd (headerSizeN v) (l ++ [e])) img) := by
      rw [List.drop_drop]
      congr 1
      omega
    rw [hdd, htail, List.drop_replicate]
    congr 1
    omega
  · simp only [List.map_append, List.map_cons, List.map_nil] at hnd ⊢
    rw [List.nodup_append] at hnd ⊢
    refine ⟨hnd.1, ?_, ?_⟩
    · simp only [List.nodup_cons, List.mem_cons, List.mem_singleton, List.not_mem_nil,
        List.nodup_nil]
      constructor
      · simp only [or_false]
        exact hnot e (by simp)
      · simp
    · intro x hx hx2
      rcases List.mem_cons.1 hx2 with rfl | hx2
      · exact hnd.2.2 hx (by simp)
      · rcases List.mem_cons.1 hx2 with rfl | hx2
        · obtain ⟨g, hgmem, hgname⟩ := List.mem_map.1 hx
          exact hnot g (List.mem_append_left _ hgmem) hgname
        · simp at hx2
  · intro b hb
    exact writeBytes_bytes_lt
      (writeBytes_bytes_lt
        (writeBytes_bytes_lt hbytes (mkHdrBytes_bytes_lt (mkNameField_bytes_lt hn3) _ _ _))
        (mkHdrBytes_bytes_lt (mkNameField_bytes_lt hfn.2.2) _ _ _))
      hdb b hb

/-- `EEPROM_AddFile` of a fresh name on any valid image: fails with
`NOTENOUGHSPACE` (writing nothing) iff `files_end + 24 + dataSize ≥
image_size`, and otherwise appends the record, returning
`dataSize % INT16_MAX`. -/
lemma addFile_good {img fn data : List Nat} {v : Nat} {es : List Entry}
    (himg : goodImage img v es) (hfn : ValidCName fn)
    (hnot : ∀ e ∈ es, e.name ≠ fn)
    (hd0 : data ≠ []) (hdlen : data.length ≤ 65534) (hdb : ∀ b ∈ data, b < 256) :
    (img.length ≤ filesEnd (headerSizeN v) es + 24 + data.length →
      EEPROM_AddFile img fn data = some (NOTENOUGHSPACE, img)) ∧
    (filesEnd (headerSizeN v) es + 24 + data.length < img.length →
      ∃ img', EEPROM_AddFile img fn data =
          some (((data.length % 32767 : Nat) : Int), img') ∧
        goodImage img' v (es ++ [⟨fn, data, zcrc32 data⟩])) := by
  rcases List.eq_nil_or_concat es with rfl | ⟨l, e, rfl⟩
  · have hfe : filesEnd (headerSizeN v) ([] : List Entry) = headerSizeN v := by simp [filesEnd]
    rw [hfe]
    obtain ⟨hfail, hok⟩ := addFile_nil himg hfn hd0 hdlen hdb
    refine ⟨hfail, fun hcap => ⟨_, hok hcap, ?_⟩⟩
    simpa using addResult_nil_good himg hfn hd0 hdlen hdb hcap
  · rw [List.concat_eq_append] at *
    obtain ⟨hfail, hok⟩ := addFile_concat himg hfn hnot hd0 hdlen hdb
    refine ⟨hfail, fun hcap => ⟨_, hok hcap, ?_⟩⟩
    have h := addResult_concat_good himg hfn hnot hd0 hdlen hdb hcap
    rw [List.append_assoc]
    exact h


/-! ### Header-codec lemmas -/

lemma exists_take8 {l : List Nat} (h8 : 8 ≤ l.length) :
    ∃ a b c d e f g h t, l = a :: b :: c :: d :: e :: f :: g :: h :: t := by
  rcases l with _ | ⟨a, _ | ⟨b, _ | ⟨c, _ | ⟨d, _ | ⟨e, _ | ⟨f, _ | ⟨g, _ | ⟨h, t⟩⟩⟩⟩⟩⟩⟩⟩ <;>
    first
      | exact ⟨_, _, _, _, _, _, _, _, _, rfl⟩
      | simp at h8

lemma strncmp_cons_ne {x y : Nat} (a b : List Nat) (n : Nat) (hxy : x ≠ y) :
    strncmp (x :: a) (y :: b) (n + 1) ≠ 0 := by
  simp only [strncmp, List.headD_cons, List.tail_cons]
  rw [if_pos hxy]
  omega

lemma strncmp_cons_eq {x : Nat} (hx : x ≠ 0) (a b : List Nat) (n : Nat) :
    strncmp (x :: a) (x :: b) (n + 1) = strncmp a b n := by
  simp only [strncmp, List.headD_cons, List.tail_cons]
  rw [if_neg (by omega), if_neg hx]

lemma strncmp_cons_zero (a b : List Nat) (n : Nat) :
    strncmp (0 :: a) (0 :: b) (n + 1) = 0 := by
  simp [strncmp]

/-- `strncmp(buf, MAGIC, 8)` accepts exactly the buffers whose first 8 bytes
are the magic constant. -/
lemma strncmp_magic {l : List Nat} (h8 : 8 ≤ l.length) :
    (strncmp l magicBytes 8 = 0 ↔ l.take 8 = magicBytes) := by
  obtain ⟨a, b, c, d, e, f, g, h, t, rfl⟩ := exists_take8 h8
  simp only [magicBytes]
  show strncmp _ _ (7 + 1) = 0 ↔ _
  by_cases ha : a = 74
  · subst ha
    rw [strncmp_cons_eq (by omega)]
    show strncmp _ _ (6 + 1) = 0 ↔ _
    by_cases hb : b = 69
    · subst hb
      rw [strncmp_cons_eq (by omega)]
      show strncmp _ _ (5 + 1) = 0 ↔ _
      by_cases hc : c = 84
      · subst hc
        rw [strncmp_cons_eq (by omega)]
        show strncmp _ _ (4 + 1) = 0 ↔ _
        by_cases hd : d = 72
        · subst hd
          rw [strncmp_cons_eq (by omega)]
          show strncmp _ _ (3 + 1) = 0 ↔ _
          by_cases he : e = 79
          · subst he
            rw [strncmp_cons_eq (by omega)]
            show strncmp _ _ (2 + 1) = 0 ↔ _
            by_cases hf : f = 77
            · subst hf
              rw [strncmp_cons_eq (by omega)]
              show strncmp _ _ (1 + 1) = 0 ↔ _
              by_cases hg : g = 69
              · subst hg
                rw [strncmp_cons_eq (by omega)]
                show strncmp _ _ (0 + 1) = 0 ↔ _
                by_cases hh : h = 0
                · subst hh
                  rw [strncmp_cons_zero]
                  refine iff_of_true rfl ?_
                  simp only [List.take_succ_cons, List.take_zero]
                · refine iff_of_false (strncmp_cons_ne _ _ _ hh) ?_
                  simp only [List.take_succ_cons, List.cons.injEq, eq_self_iff_true,
                    true_and, List.take_zero, and_true]
                  exact fun hx => hh hx
              · refine iff_of_false (strncmp_cons_ne _ _ _ hg) ?_
                simp only [List.take_succ_cons, List.cons.injEq, eq_self_iff_true, true_and]
                exact fun hx => hg hx.1
            · refine iff_of_false (strncmp_cons_ne _ _ _ hf) ?_
              simp only [List.take_succ_cons, List.cons.injEq, eq_self_iff_true, true_and]
              exact fun hx => hf hx.1
          · refine iff_of_false (strncmp_cons_ne _ _ _ he) ?_
            simp only [List.take_succ_cons, List.cons.injEq, eq_self_iff_true, true_and]
            exact fun hx => he hx.1
        · refine iff_of_false (strncmp_cons_ne _ _ _ hd) ?_
          simp only [List.take_succ_cons, List.cons.injEq, eq_self_iff_true, true_and]
          exact fun hx => hd hx.1
      · refine iff_of_false (strncmp_cons_ne _ _ _ hc) ?_
        simp only [List.take_succ_cons, List.cons.injEq, eq_self_iff_true, true_and]
        exact fun hx => hc hx.1
    · refine iff_of_false (strncmp_cons_ne _ _ _ hb) ?_
      simp only [List.take_succ_cons, List.cons.injEq, eq_self_iff_true, true_and]
      exact fun hx => hb hx.1
  · refine iff_of_false (strncmp_cons_ne _ _ _ ha) ?_
    simp only [List.take_succ_cons, List.cons.injEq]
    exact fun hx => ha hx.1


/-- `jeefs_header_detect_version` on a buffer with the magic and a supported
version byte returns that version. -/
lemma detect_version_eq {data : List Nat} {v : Nat} (hlen : 12 ≤ data.length)
    (hmag : data.take 8 = magicBytes) (hver : byteAt data 8 = v)
    (hv : v = 1 ∨ v = 2 ∨ v = 3) :
    jeefs_header_detect_version data = (v : Int) := by
  unfold jeefs_header_detect_version
  rw [if_neg (by omega)]
  have h0 : strncmp (data.take 8) magicBytes 8 = 0 := by
    rw [strncmp_magic (by simp; omega)]
    rw [List.take_take]
    simpa using hmag
  rw [if_neg (by simp [h0]), hver]
  rcases hv with rfl | rfl | rfl <;> norm_num [jeefs_header_size]

/-- `EEPROM_GetHeaderSize` on the 12-byte prefix of a buffer with a valid
magic and version. -/
lemma getHeaderSize_eq {data : List Nat} {v : Nat} (hlen : 12 ≤ data.length)
    (hmag : data.take 8 = magicBytes) (hver : byteAt data 8 = v)
    (hv : v = 1 ∨ v = 2 ∨ v = 3) :
    EEPROM_GetHeaderSize (readBytes data 0 12) = ((headerSizeN v : Nat) : Int) := by
  unfold EEPROM_GetHeaderSize
  have ht : (readBytes data 0 12).take 8 = data.take 8 := by
    rw [readBytes_zero_off, List.take_take]
    simp
  have hb : byteAt (readBytes data 0 12) 8 = v := by
    rw [readBytes_zero_off, byteAt_take (by omega)]
    exact hver
  rw [ht, hmag, if_neg (by decide), hb]
  rcases hv with rfl | rfl | rfl <;> decide

lemma getHeaderSize_read_eq {data : List Nat} {v : Nat} (hlen : 12 ≤ data.length)
    (hmag : data.take 8 = magicBytes) (hver : byteAt data 8 = v)
    (hv : v = 1 ∨ v = 2 ∨ v = 3) :
    EEPROM_GetHeaderSize_read data = some ((headerSizeN v : Nat) : Int) := by
  unfold EEPROM_GetHeaderSize_read
  rw [eeprom_read_ok (by omega)]
  simp only [Option.map_some']
  rw [getHeaderSize_eq hlen hmag hver hv]

/-- `jeefs_header_update_crc` on a buffer with valid magic and version stores
the CRC32 of the leading `hdr_size - 4` bytes at `hdr_size - 4`. -/
lemma update_crc_good {data : List Nat} {v : Nat} (hlen : 12 ≤ data.length)
    (hmag : data.take 8 = magicBytes) (hver : byteAt data 8 = v)
    (hv : v = 1 ∨ v = 2 ∨ v = 3) (hhs : headerSizeN v ≤ data.length) :
    jeefs_header_update_crc data =
      (0, writeBytes data (headerSizeN v - 4)
        (le32 (zcrc32 (readBytes data 0 (headerSizeN v - 4))))) := by
  unfold jeefs_header_update_crc
  simp only [detect_version_eq hlen hmag hver hv]
  rw [if_neg (by omega)]
  have hsz : ((jeefs_header_size ((v : Int)).toNat)).toNat = headerSizeN v := by
    rcases hv with rfl | rfl | rfl <;> rfl
  simp only [hsz]
  rw [if_neg (by omega)]

/-- `jeefs_header_verify_crc` on a buffer with valid magic and version is the
stored-CRC-zero / CRC-mismatch test. -/
lemma verify_crc_eq {data : List Nat} {v : Nat} (hlen : 12 ≤ data.length)
    (hmag : data.take 8 = magicBytes) (hver : byteAt data 8 = v)
    (hv : v = 1 ∨ v = 2 ∨ v = 3) (hhs : headerSizeN v ≤ data.length) :
    jeefs_header_verify_crc data =
      (if rd32 (readBytes data (headerSizeN v - 4) 4) = 0 ∨
          zcrc32 (readBytes data 0 (headerSizeN v - 4)) ≠
            rd32 (readBytes data (headerSizeN v - 4) 4)
        then -1 else 0) := by
  unfold jeefs_header_verify_crc
  simp only [detect_version_eq hlen hmag hver hv]
  rw [if_neg (by omega)]
  have hsz : ((jeefs_header_size ((v : Int)).toNat)).toNat = headerSizeN v := by
    rcases hv with rfl | rfl | rfl <;> rfl
  simp only [hsz]
  rw [if_neg (by omega)]

/-- `jeefs_header_init` = zero the header area, write magic and version, and
hand the buffer to `jeefs_header_update_crc`. -/
lemma init_good {buf : List Nat} {v : Nat} (hv : v = 1 ∨ v = 2 ∨ v = 3)
    (hlen : headerSizeN v ≤ buf.length) :
    jeefs_header_init buf v =
      jeefs_header_update_crc (hdrArea v ++ buf.drop (headerSizeN v)) := by
  have hge := headerSizeN_ge v
  unfold jeefs_header_init
  have hsz : jeefs_header_size v = ((headerSizeN v : Nat) : Int) := by
    rcases hv with rfl | rfl | rfl <;> rfl
  simp only [hsz, Int.toNat_natCast]
  rw [if_neg (by omega)]
  congr 1
  have h1 : writeBytes buf 0 (List.replicate (headerSizeN v) 0) =
      List.replicate (headerSizeN v) 0 ++ buf.drop (headerSizeN v) := by
    unfold writeBytes
    simp
  rw [h1, writeBytes_append (by simp [magicBytes]; omega),
    writeBytes_append
      (by rw [length_writeBytes (by simp [magicBytes]; omega)]; simp; omega)]
  rfl

/-- The header area produced by `jeefs_header_init`: correct length, magic,
version byte, byte-valued contents. -/
lemma hdrArea_facts {v : Nat} (hv : v = 1 ∨ v = 2 ∨ v = 3) :
    (hdrArea v).length = headerSizeN v ∧ (hdrArea v).take 8 = magicBytes ∧
      byteAt (hdrArea v) 8 = v ∧ (∀ b ∈ hdrArea v, b < 256) := by
  rcases hv with rfl | rfl | rfl <;> decide

/-- After `jeefs_header_update_crc` succeeds on a buffer with valid magic and
version and a nonzero computed CRC, `jeefs_header_verify_crc` accepts it. -/
lemma update_verify {A t : List Nat} {v : Nat} (hv : v = 1 ∨ v = 2 ∨ v = 3)
    (hA : A.length = headerSizeN v) (hmag : A.take 8 = magicBytes)
    (hver : byteAt A 8 = v)
    (hK : zcrc32 (A.take (headerSizeN v - 4)) ≠ 0) :
    (jeefs_header_update_crc (A ++ t)).1 = 0 ∧
      jeefs_header_verify_crc (jeefs_header_update_crc (A ++ t)).2 = 0 := by
  have hge := headerSizeN_ge v
  have hmag2 : (A ++ t).take 8 = magicBytes := by
    rw [List.take_append_of_le_length (by omega)]
    exact hmag
  have hver2 : byteAt (A ++ t) 8 = v := by
    rw [byteAt_append (by omega)]
    exact hver
  have h12 : 12 ≤ (A ++ t).length := by simp; omega
  have hhs : headerSizeN v ≤ (A ++ t).length := by simp; omega
  rw [update_crc_good h12 hmag2 hver2 hv hhs]
  refine ⟨rfl, ?_⟩
  have hK0 : readBytes (A ++ t) 0 (headerSizeN v - 4) = A.take (headerSizeN v - 4) := by
    rw [readBytes_append (by omega), readBytes_zero_off]
  rw [hK0, writeBytes_append (by rw [length_le32]; omega)]
  have hlenB : (writeBytes A (headerSizeN v - 4)
      (le32 (zcrc32 (A.take (headerSizeN v - 4))))).length = A.length :=
    length_writeBytes (by rw [length_le32]; omega)
  have hBmag : (writeBytes A (headerSizeN v - 4)
      (le32 (zcrc32 (A.take (headerSizeN v - 4))))).take 8 = magicBytes := by
    rw [← readBytes_zero_off, readBytes_writeBytes_before (by omega) (by omega),
      readBytes_zero_off]
    exact hmag
  have hBver : byteAt (writeBytes A (headerSizeN v - 4)
      (le32 (zcrc32 (A.take (headerSizeN v - 4))))) 8 = v := by
    rw [byteAt_writeBytes_before (by omega) (by omega)]
    exact hver
  have hBmag2 : (writeBytes A (headerSizeN v - 4)
      (le32 (zcrc32 (A.take (headerSizeN v - 4)))) ++ t).take 8 = magicBytes := by
    rw [List.take_append_of_le_length (by omega)]
    exact hBmag
  have hBver2 : byteAt (writeBytes A (headerSizeN v - 4)
      (le32 (zcrc32 (A.take (headerSizeN v - 4)))) ++ t) 8 = v := by
    rw [byteAt_append (by omega)]
    exact hBver
  rw [verify_crc_eq (by simp; omega) hBmag2 hBver2 hv (by simp; omega)]
  have h4 : readBytes (writeBytes A (headerSizeN v - 4)
      (le32 (zcrc32 (A.take (headerSizeN v - 4))))) (headerSizeN v - 4) 4 =
      le32 (zcrc32 (A.take (headerSizeN v - 4))) := by
    have hx := @readBytes_writeBytes_self A
      (le32 (zcrc32 (A.take (headerSizeN v - 4)))) (headerSizeN v - 4)
      (by rw [length_le32]; omega)
    rwa [length_le32] at hx
  have hstored : rd32 (readBytes (writeBytes A (headerSizeN v - 4)
      (le32 (zcrc32 (A.take (headerSizeN v - 4)))) ++ t) (headerSizeN v - 4) 4) =
      zcrc32 (A.take (headerSizeN v - 4)) := by
    rw [readBytes_append (by omega), h4, rd32_le32]
    exact Nat.mod_eq_of_lt (zcrc32_lt _)
  have hcalc : readBytes (writeBytes A (headerSizeN v - 4)
      (le32 (zcrc32 (A.take (headerSizeN v - 4)))) ++ t) 0 (headerSizeN v - 4) =
      A.take (headerSizeN v - 4) := by
    rw [readBytes_append (by omega)]
    rw [readBytes_writeBytes_before (by omega) (by omega)]
    rw [readBytes_zero_off]
  rw [hstored, hcalc]
  rw [if_neg (by push_neg; exact ⟨hK, rfl⟩)]

/-! ### Sub-slice and find-by-membership helpers -/

lemma readBytes_sub (l : List Nat) (a k n m : Nat) (h : k + n ≤ m) :
    readBytes (readBytes l a m) k n = readBytes l (a + k) n := by
  apply List.ext_getElem?
  intro i
  simp only [readBytes, List.getElem?_take, List.getElem?_drop]
  split_ifs <;> first
    | rfl
    | omega
    | (congr 1; omega)
    | (rw [List.getElem?_eq_none (by omega)])
    | (rw [eq_comm, List.getElem?_eq_none (by omega)])

lemma findSpec_found_of_mem {fn : List Nat} :
    ∀ {es : List Entry} (addr : Nat), (∃ e ∈ es, e.name = fn) →
      ∃ h a, findSpec fn addr es = FindRes.found h a := by
  intro es
  induction es with
  | nil =>
    intro addr h
    simp at h
  | cons g rest ih =>
    intro addr hex
    by_cases hg : g.name = fn
    · refine ⟨⟨mkNameField g.name, g.data.length, g.crc,
        if rest.isEmpty then 0 else addr + 24 + g.data.length⟩, addr, ?_⟩
      simp [findSpec, hg]
    · obtain ⟨e, he, hename⟩ := hex
      rcases List.mem_cons.mp he with rfl | hmem
      · exact absurd hename hg
      · obtain ⟨h, a, hh⟩ := ih (addr + 24 + g.data.length) ⟨e, hmem, hename⟩
        refine ⟨h, a, ?_⟩
        simp [findSpec, hg, hh]

/-- Claim C3 (amended): on a valid image with a fresh valid name and nonempty
data (of int16-expressible size), `EEPROM_AddFile` succeeds returning
`dataSize` iff `new_offset + 24 + dataSize < image_size` strictly; when
`image_size ≤ new_offset + 24 + dataSize` — the exact-fit boundary included —
it returns the distinct error `NOTENOUGHSPACE` and writes nothing. -/
theorem C3_addFile (img fn data : List Nat) (v : Nat) (es : List Entry)
    (himg : goodImage img v es) (hfn : ValidCName fn)
    (hnot : ∀ e ∈ es, e.name ≠ fn)
    (hd0 : data ≠ []) (hdlen : data.length ≤ 32766) (hdb : ∀ b ∈ data, b < 256) :
    (filesEnd (headerSizeN v) es + 24 + data.length < img.length →
      ∃ img2, EEPROM_AddFile img fn data = some ((data.length : Int), img2) ∧
        goodImage img2 v (es ++ [⟨fn, data, zcrc32 data⟩])) ∧
    (img.length ≤ filesEnd (headerSizeN v) es + 24 + data.length →
      EEPROM_AddFile img fn data = some (NOTENOUGHSPACE, img)) := by
  obtain ⟨hfail, hok⟩ := addFile_good himg hfn hnot hd0 (by omega) hdb
  refine ⟨fun hcap => ?_, hfail⟩
  obtain ⟨img2, he, hg⟩ := hok hcap
  refine ⟨img2, ?_, hg⟩
  rw [he, Nat.mod_eq_of_lt (by omega)]

/-- Claim C3, the exact-fit counterexample: a freshly formatted 284-byte
version-2 image satisfies `new_offset + 24 + dataSize = 256 + 24 + 4 = 284 =
image_size` — the claim's `≤` holds — yet `EEPROM_AddFile` (line 292 tests
`>=`) returns `NOTENOUGHSPACE`, not `dataSize`. -/
theorem C3_cex :
    goodImage imgF284 2 [] ∧ ValidCName [97] ∧
      headerSizeN 2 + 24 + 4 ≤ imgF284.length ∧
      EEPROM_AddFile imgF284 [97] [9, 9, 9, 9] = some (NOTENOUGHSPACE, imgF284) ∧
      NOTENOUGHSPACE ≠ ((4 : Nat) : Int) := by decide

theorem C3_witness :
    ∃ img2, EEPROM_AddFile imgF320 [97] [7, 8] = some ((2 : Int), img2) ∧
      goodImage img2 2 ([] ++ [⟨[97], [7, 8], zcrc32 [7, 8]⟩]) :=
  (C3_addFile imgF320 [97] [7, 8] 2 [] (by decide) (by decide)
    (by simp) (by simp) (by decide) (by decide)).1 (by decide)

/-- Claim C4 (corrected): `EEPROM_AddFile` on a name that already exists
returns 0 (`NOTHINGDO`, line 226 `return 0`), not the distinct error
`FILEEXISTS`, and leaves the image unchanged. -/
theorem C4_addFileExists (img fn data : List Nat) (v : Nat) (es : List Entry) (e : Entry)
    (himg : goodImage img v es) (hfn : ValidCName fn)
    (hmem : e ∈ es) (hname : e.name = fn) (hd0 : data ≠ []) :
    EEPROM_AddFile img fn data = some (0, img) := by
  obtain ⟨l1, l2, hsplit⟩ := List.append_of_mem hmem
  obtain ⟨hff, _, _, _, _⟩ := findFile_found himg hfn hsplit hname
  have hgs := getHeaderSize_read_good himg
  unfold EEPROM_AddFile
  rw [if_neg (by have := hfn.2.1; omega),
    if_neg (by intro hzz; exact hd0 (List.eq_nil_of_length_eq_zero hzz))]
  simp only [hgs, hff]

/-- Claim C4 counterexample: adding "a" again to an image that already holds
"a" returns 0 — the `NOTHINGDO` success code, not `FILEEXISTS = -1` — so no
distinct error value reaches the caller. -/
theorem C4_cex :
    goodImage imgA 2 [entA] ∧ entA.name = [97] ∧
      EEPROM_AddFile imgA [97] [5] = some (0, imgA) ∧
      (0 : Int) ≠ FILEEXISTS ∧ NOTHINGDO = 0 := by decide

theorem C4_witness : EEPROM_AddFile imgA [97] [5] = some (0, imgA) :=
  C4_addFileExists imgA [97] [5] 2 [entA] entA (by decide) (by decide)
    (by decide) (by decide) (by simp)

/-- Claim C7 (amended): the stored CRC32 is zlib `crc32(0L, ...)` — the
reflected-0xEDB88320 CRC with internal initial register `0xFFFFFFFF` and a
final XOR with `0xFFFFFFFF` (`zcrc32`), not the init-0/no-xor variant —
computed over `[0, header_size(v) - 4)` for headers and over exactly the
data bytes for the records `EEPROM_AddFile` writes. -/
theorem C7_crc :
    (∀ (data : List Nat) (v : Nat), 12 ≤ data.length → data.take 8 = magicBytes →
      byteAt data 8 = v → (v = 1 ∨ v = 2 ∨ v = 3) → headerSizeN v ≤ data.length →
      (jeefs_header_update_crc data).2 =
        writeBytes data (headerSizeN v - 4)
          (le32 (zcrc32 (readBytes data 0 (headerSizeN v - 4))))) ∧
    (∀ (img fn data : List Nat) (v : Nat) (es : List Entry),
      goodImage img v es → ValidCName fn → (∀ e ∈ es, e.name ≠ fn) →
      data ≠ [] → data.length ≤ 65534 → (∀ b ∈ data, b < 256) →
      filesEnd (headerSizeN v) es + 24 + data.length < img.length →
      ∃ img2, EEPROM_AddFile img fn data =
          some (((data.length % 32767 : Nat) : Int), img2) ∧
        rd32 (readBytes img2 (filesEnd (headerSizeN v) es + 18) 4) = zcrc32 data) := by
  constructor
  · intro data v hlen hmag hver hv hhs
    rw [update_crc_good hlen hmag hver hv hhs]
  · intro img fn data v es himg hfn hnot hd0 hdlen hdb hcap
    obtain ⟨_, hok⟩ := addFile_good himg hfn hnot hd0 hdlen hdb
    obtain ⟨img2, he, hg⟩ := hok hcap
    refine ⟨img2, he, ?_⟩
    have hch2 : chainOK img2 (headerSizeN v) (es ++ [⟨fn, data, zcrc32 data⟩]) :=
      hg.2.2.2.2.2.2.1
    have hsuf : chainOK img2 (filesEnd (headerSizeN v) es) [⟨fn, data, zcrc32 data⟩] :=
      chainOK_suffix hch2
    obtain ⟨_, hhdr, _, _, _⟩ := hsuf
    have h1 : readBytes img2 (filesEnd (headerSizeN v) es + 18) 4 =
        readBytes (readBytes img2 (filesEnd (headerSizeN v) es) 24) 18 4 :=
      (readBytes_sub img2 (filesEnd (headerSizeN v) es) 18 4 24 (by omega)).symm
    rw [h1, hhdr]
    have h2 : entryHdrBytes (filesEnd (headerSizeN v) es)
        (⟨fn, data, zcrc32 data⟩ : Entry) [] =
        mkHdrBytes (mkNameField fn) data.length (zcrc32 data) 0 := rfl
    rw [h2, readBytes_mkHdr_crc (length_mkNameField hfn.2.1), rd32_le32]
    exact Nat.mod_eq_of_lt (zcrc32_lt data)

/-- Claim C7 counterexample: the CRC stored by `jeefs_header_init` in a
fresh version-2 header is 1149974771 = `crc32(0L, hdr, 252)` (zlib), while
the init-0/no-final-XOR CRC of the same 252 bytes is 3806880002: the spec
names the wrong CRC variant. -/
theorem C7_cex :
    (jeefs_header_init (List.replicate 256 0) 2).1 = 0 ∧
      rd32 (readBytes hdrInitV2 252 4) = 1149974771 ∧
      specCrcInit0 (readBytes hdrInitV2 0 252) = 3806880002 ∧
      rd32 (readBytes hdrInitV2 252 4) ≠ specCrcInit0 (readBytes hdrInitV2 0 252) := by
  decide

theorem C7_witness :
    (jeefs_header_update_crc hdrZero2).2 =
      writeBytes hdrZero2 252 (le32 (zcrc32 (readBytes hdrZero2 0 252))) ∧
    ∃ img2, EEPROM_AddFile imgF320 [98] [4, 5, 6] = some ((3 : Int), img2) ∧
      rd32 (readBytes img2 (filesEnd 256 [] + 18) 4) = zcrc32 [4, 5, 6] := by
  constructor
  · exact C7_crc.1 hdrZero2 2 (by decide) (by decide) (by decide) (by decide) (by decide)
  · exact C7_crc.2 imgF320 [98] [4, 5, 6] 2 [] (by decide) (by decide) (by simp)
      (by simp) (by decide) (by decide) (by decide)

/-- Claim C5: for every version v in {1, 2, 3} and every buffer of length at
least `header_size(v)`, `jeefs_header_init` succeeds (returns 0) and the
header it leaves behind passes `jeefs_header_verify_crc`. -/
theorem C5_initVerify (buf : List Nat) (v : Nat) (hv : v = 1 ∨ v = 2 ∨ v = 3)
    (hlen : headerSizeN v ≤ buf.length) :
    (jeefs_header_init buf v).1 = 0 ∧
      jeefs_header_verify_crc (jeefs_header_init buf v).2 = 0 := by
  rw [init_good hv hlen]
  obtain ⟨hA, hmag, hver, _⟩ := hdrArea_facts hv
  apply update_verify hv hA hmag hver
  rcases hv with rfl | rfl | rfl <;> decide

theorem C5_witness :
    (jeefs_header_init (List.replicate 256 0) 2).1 = 0 ∧
      jeefs_header_verify_crc (jeefs_header_init (List.replicate 256 0) 2).2 = 0 :=
  C5_initVerify (List.replicate 256 0) 2 (by decide) (by decide)

/-- Claim C6: a header with valid magic and version whose stored CRC32 word
is 0 is rejected by `jeefs_header_verify_crc` and by
`EEPROM_HeaderCheckConsistency`, whatever the preceding bytes are — in
particular even if the recomputed CRC were also 0, since the `stored == 0`
disjunct fails first. -/
theorem C6_zeroCrc (data : List Nat) (v : Nat) (hlen : 12 ≤ data.length)
    (hmag : data.take 8 = magicBytes) (hver : byteAt data 8 = v)
    (hv : v = 1 ∨ v = 2 ∨ v = 3) (hhs : headerSizeN v ≤ data.length)
    (hstored : rd32 (readBytes data (headerSizeN v - 4) 4) = 0) :
    jeefs_header_verify_crc data = -1 ∧
      EEPROM_HeaderCheckConsistency data = some (-1) := by
  have hge := headerSizeN_ge v
  constructor
  · rw [verify_crc_eq hlen hmag hver hv hhs, if_pos (Or.inl hstored)]
  · unfold EEPROM_HeaderCheckConsistency
    have hgs := getHeaderSize_read_eq hlen hmag hver hv
    simp only [hgs, Int.toNat_natCast]
    rw [if_neg (by omega), if_neg (by omega)]
    have hrt : readBytes (readBytes data 0 (headerSizeN v)) (headerSizeN v - 4) 4 =
        readBytes data (headerSizeN v - 4) 4 := by
      have h := readBytes_sub data 0 (headerSizeN v - 4) 4 (headerSizeN v) (by omega)
      simpa using h
    simp only [hrt, hstored]
    simp

theorem C6_witness :
    jeefs_header_verify_crc hdrZero2 = -1 ∧
      EEPROM_HeaderCheckConsistency hdrZero2 = some (-1) :=
  C6_zeroCrc hdrZero2 2 (by decide) (by decide) (by decide) (by decide)
    (by decide) (by decide)

lemma strncmp_magic_ne {data : List Nat} (h8 : 8 ≤ data.length)
    (hne : data.take 8 ≠ magicBytes) :
    strncmp (data.take 8) magicBytes 8 ≠ 0 := by
  intro h0
  rw [@strncmp_magic (data.take 8) (by simp; omega), List.take_take] at h0
  simp at h0
  exact hne h0

/-- Claim C2: the magic constant is exactly the 8 bytes "JETHOME\x00";
`EEPROM_FormatEEPROM` and `jeefs_header_init` write it at offset 0, and both
`jeefs_header_detect_version` and `EEPROM_GetHeaderSize` reject every buffer
whose first 8 bytes differ from it. -/
theorem C2_magic :
    magicBytes = [74, 69, 84, 72, 79, 77, 69, 0] ∧
    (∀ sz v img, EEPROM_FormatEEPROM sz v = some img →
      readBytes img 0 8 = magicBytes) ∧
    (∀ (buf : List Nat) (v : Nat), (v = 1 ∨ v = 2 ∨ v = 3) →
      headerSizeN v ≤ buf.length →
      readBytes (jeefs_header_init buf v).2 0 8 = magicBytes) ∧
    (∀ data : List Nat, data.take 8 ≠ magicBytes →
      jeefs_header_detect_version data = -1) ∧
    (∀ data : List Nat, 12 ≤ data.length → data.take 8 ≠ magicBytes →
      EEPROM_GetHeaderSize (readBytes data 0 12) = -1) := by
  refine ⟨rfl, ?_, ?_, ?_, ?_⟩
  · intro sz v img h
    unfold EEPROM_FormatEEPROM at h
    split_ifs at h with hcond
    · obtain ⟨hv, hsz⟩ := hcond
      have hge : 256 ≤ headerSizeN v := headerSizeN_ge v
      simp only [Option.some.injEq] at h
      subst h
      have hl1 : (writeBytes (List.replicate sz 0) 0 magicBytes).length = sz := by
        rw [length_writeBytes (by simp [magicBytes]; omega)]
        simp
      have hl2 : (writeBytes (writeBytes (List.replicate sz 0) 0 magicBytes)
          8 [v % 256]).length = sz := by
        rw [length_writeBytes (by rw [hl1]; simp; omega), hl1]
      rw [readBytes_writeBytes_before (by omega) (by rw [hl2]; omega)]
      rw [readBytes_writeBytes_before (by omega) (by rw [hl1]; omega)]
      have hself := @readBytes_writeBytes_self (List.replicate sz 0) magicBytes 0
        (by simp [magicBytes]; omega)
      simpa using hself
  · intro buf v hv hlen
    rw [init_good hv hlen]
    obtain ⟨hA, hmag, hver, _⟩ := hdrArea_facts hv
    have hge : 256 ≤ headerSizeN v := headerSizeN_ge v
    have hmag2 : (hdrArea v ++ buf.drop (headerSizeN v)).take 8 = magicBytes := by
      rw [List.take_append_of_le_length (by omega)]
      exact hmag
    have hver2 : byteAt (hdrArea v ++ buf.drop (headerSizeN v)) 8 = v := by
      rw [byteAt_append (by omega)]
      exact hver
    rw [update_crc_good (by simp; omega) hmag2 hver2 hv (by simp; omega)]
    rw [readBytes_writeBytes_before (by omega) (by simp; omega)]
    rw [readBytes_zero_off]
    exact hmag2
  · intro data hne
    unfold jeefs_header_detect_version
    by_cases h12 : data.length < 12
    · rw [if_pos h12]
    · rw [if_neg h12, if_pos (strncmp_magic_ne (by omega) hne)]
  · intro data h12 hne
    unfold EEPROM_GetHeaderSize
    have ht : (readBytes data 0 12).take 8 = data.take 8 := by
      rw [readBytes_zero_off, List.take_take]
      simp
    rw [ht, if_pos (strncmp_magic_ne (by omega) hne)]

theorem C2_witness :
    readBytes imgF320 0 8 = magicBytes ∧
      jeefs_header_detect_version (hdrZero2.set 0 75) = -1 := by
  constructor
  · exact C2_magic.2.1 320 2 imgF320 (by decide)
  · exact C2_magic.2.2.2.1 (hdrZero2.set 0 75) (by decide)

/-- Claim C10: on a valid image holding no files (a freshly formatted one in
particular) `EEPROM_ListFiles` with `maxFiles ≥ 1` returns count 1 — not
0 — and one all-zero 15-byte name: the walk copies the empty slot at
`files_start` before terminating on the zero `nextFileAddress`. -/
theorem C10_listEmpty (img : List Nat) (v : Nat) (maxFiles : Nat)
    (himg : goodImage img v []) (hmf : 1 ≤ maxFiles) :
    EEPROM_ListFiles img maxFiles = some (1, [List.replicate 15 0]) := by
  have hgs := getHeaderSize_read_good himg
  obtain ⟨hv, hmag, hver, hsz1, hsz2, _, hch, htail, hnd, hbytes⟩ := himg
  have hfe : filesEnd (headerSizeN v) ([] : List Entry) = headerSizeN v := by
    simp [filesEnd]
  rw [hfe] at htail
  have hzeros : readBytes img (headerSizeN v) 24 = List.replicate 24 0 := by
    unfold readBytes
    rw [htail, List.take_replicate]
    congr 1
    omega
  have hread : eeprom_read img 24 (headerSizeN v) = some (List.replicate 24 0) := by
    rw [eeprom_read_ok (by omega), hzeros]
  unfold EEPROM_ListFiles
  simp only [hgs]
  rw [intToU16_ofNat (headerSizeN_lt v)]
  obtain ⟨m, rfl⟩ : ∃ m, maxFiles = m + 1 := ⟨maxFiles - 1, by omega⟩
  have hnext : EEPROM_getNextFileAddress img (headerSizeN v) = 0 := by
    unfold EEPROM_getNextFileAddress
    rw [hread]
    decide
  simp only [listLoop, hread, hnext]
  simp
  decide

theorem C10_witness : EEPROM_ListFiles imgF320 10 = some (1, [List.replicate 15 0]) :=
  C10_listEmpty imgF320 2 10 (by decide) (by decide)

/-- Claim C1 is false of the code: on the valid 340-byte image holding
"a" = `[1]`, "b" = `[2, 2]`, "c" = `[3]`, deleting "a" (which two records
follow) succeeds, but the compaction slides bytes without rewriting any
moved record's `nextFileAddress`: the record "b", now at offset 256, still
stores `nextFileAddress = 307` where F3 demands `256 + 24 + 2 = 282` — and
walking the list afterwards no longer finds "c". -/
theorem C1_deleteBreaksF3 :
    goodImage imgB3 2 [⟨[97], [1], zcrc32 [1]⟩, ⟨[98], [2, 2], zcrc32 [2, 2]⟩,
      ⟨[99], [3], zcrc32 [3]⟩] ∧
    EEPROM_DeleteFile imgB3 [97] = some (1, imgB4) ∧
    readBytes imgB4 256 16 = mkNameField [98] ∧
    rd16 (readBytes imgB4 272 2) = 2 ∧
    rd16 (readBytes imgB4 278 2) = 307 ∧
    256 + 24 + 2 ≠ 307 ∧
    EEPROM_FindFile imgB4 [99] = some FindRes.notFound := by
  decide

/-! ### Same-size write: chain surgery and find-address stability -/

lemma chainOK_replace {img img2 : List Nat} {e e2 : Entry}
    (hlen : img2.length = img.length) (hdl : e2.data.length = e.data.length)
    (hE2 : EntryOK e2) :
    ∀ (l1 l2 : List Entry) (addr : Nat), chainOK img addr (l1 ++ e :: l2) →
      (∀ a n, a + n ≤ filesEnd addr l1 → readBytes img2 a n = readBytes img a n) →
      readBytes img2 (filesEnd addr l1) 24 = entryHdrBytes (filesEnd addr l1) e2 l2 →
      readBytes img2 (filesEnd addr l1 + 24) e2.data.length = e2.data →
      (∀ a n, filesEnd addr l1 + 24 + e.data.length ≤ a →
        readBytes img2 a n = readBytes img a n) →
      chainOK img2 addr (l1 ++ e2 :: l2)
  | [], l2, addr, hch, hbefore, hhdr, hdata, hafter => by
    obtain ⟨hE, hh, hd, hb, hrest⟩ := hch
    have hfe : filesEnd addr ([] : List Entry) = addr := by simp [filesEnd]
    rw [hfe] at hhdr hdata hafter
    refine ⟨hE2, hhdr, hdata, by omega, ?_⟩
    rw [hdl]
    exact chainOK_frame hlen l2 (addr + 24 + e.data.length) hrest
      (fun a n ha _ => hafter a n ha)
  | g :: l1, l2, addr, hch, hbefore, hhdr, hdata, hafter => by
    obtain ⟨hEg, hgh, hgd, hgb, hrest⟩ := hch
    have hfc : filesEnd addr (g :: l1) = filesEnd (addr + 24 + g.data.length) l1 :=
      filesEnd_cons addr g l1
    have hge1 : addr + 24 + g.data.length ≤ filesEnd addr (g :: l1) := by
      rw [hfc]
      exact filesEnd_ge _ _
    refine ⟨hEg, ?_, ?_, by omega, ?_⟩
    · rw [hbefore addr 24 (by omega), hgh]
      exact entryHdrBytes_congr (by cases l1 <;> rfl)
    · rw [hbefore (addr + 24) g.data.length (by omega)]
      exact hgd
    · exact chainOK_replace hlen hdl hE2 l1 l2 (addr + 24 + g.data.length) hrest
        (fun a n ha => hbefore a n (by rw [hfc]; exact ha))
        (by rw [← hfc]; exact hhdr)
        (by rw [← hfc]; exact hdata)
        (fun a n ha => hafter a n (by rw [hfc]; exact ha))

lemma findAddr_good {img fn : List Nat} {v : Nat} {es : List Entry}
    (himg : goodImage img v es) (hfn : ValidCName fn) :
    findAddr img fn = (match findSpec fn (headerSizeN v) es with
      | FindRes.found _ a => some a
      | _ => none) := by
  unfold findAddr
  rw [findFile_good himg hfn]
  cases findSpec fn (headerSizeN v) es <;> rfl

lemma forall₂_name_refl :
    ∀ l : List Entry, List.Forall₂
      (fun x y => x.name = y.name ∧ x.data.length = y.data.length) l l
  | [] => List.Forall₂.nil
  | x :: l => List.Forall₂.cons ⟨rfl, rfl⟩ (forall₂_name_refl l)

lemma forall₂_replace {e e2 : Entry}
    (h : e.name = e2.name ∧ e.data.length = e2.data.length) :
    ∀ (l1 l2 : List Entry), List.Forall₂
      (fun x y => x.name = y.name ∧ x.data.length = y.data.length)
      (l1 ++ e :: l2) (l1 ++ e2 :: l2)
  | [], l2 => List.Forall₂.cons h (forall₂_name_refl l2)
  | g :: l1, l2 => List.Forall₂.cons ⟨rfl, rfl⟩ (forall₂_replace h l1 l2)

lemma findSpec_addr_congr {fn : List Nat} {es es2 : List Entry}
    (h : List.Forall₂ (fun x y => x.name = y.name ∧ x.data.length = y.data.length) es es2) :
    ∀ addr, (match findSpec fn addr es with
      | FindRes.found _ a => some a
      | _ => none) =
    (match findSpec fn addr es2 with
      | FindRes.found _ a => some a
      | _ => none) := by
  induction h with
  | nil =>
    intro addr
    rfl
  | cons hxy hrest ih =>
    rename_i x y l1 l2
    intro addr
    obtain ⟨hn, hd⟩ := hxy
    simp only [findSpec]
    by_cases hx : x.name = fn
    · have hy : y.name = fn := by
        rw [← hn]
        exact hx
      rw [if_pos hx, if_pos hy]
    · have hy : ¬ y.name = fn := by
        rw [← hn]
        exact hx
      rw [if_neg hx, if_neg hy, hd]
      exact ih (addr + 24 + y.data.length)

/-- Claim C9: a same-size `EEPROM_WriteFile` overwrites only the record
header at `offset` (with the fresh data CRC32) and the data bytes at
`offset + 24`: every byte before the record and after its data block is
unchanged, the image stays valid with only this entry's data replaced, and
the address at which `EEPROM_FindFile` locates every file — the offsets
`list()` walks — is identical before and after. -/
theorem C9_writeSameSize (img fn nd : List Nat) (v : Nat) (l1 l2 : List Entry) (e : Entry)
    (himg : goodImage img v (l1 ++ e :: l2)) (hfn : ValidCName fn)
    (hname : e.name = fn) (hsize : nd.length = e.data.length)
    (hndb : ∀ b ∈ nd, b < 256) (hnd0 : nd ≠ []) :
    ∃ img2, EEPROM_WriteFile img fn nd = some (toInt16 nd.length, img2) ∧
      goodImage img2 v (l1 ++ ⟨e.name, nd, zcrc32 nd⟩ :: l2) ∧
      (∀ g ∈ l1 ++ e :: l2, findAddr img2 g.name = findAddr img g.name) ∧
      img2.length = img.length ∧
      (∀ a n, a + n ≤ filesEnd (headerSizeN v) l1 →
        readBytes img2 a n = readBytes img a n) ∧
      (∀ a n, filesEnd (headerSizeN v) l1 + 24 + e.data.length ≤ a →
        readBytes img2 a n = readBytes img a n) := by
  obtain ⟨hff, hhdr, hdata, hbound, hE⟩ := findFile_found himg hfn rfl hname
  obtain ⟨hv, hmag, hver, hsz1, hsz2, hEs, hch, htail, hnd, hbytes⟩ := id himg
  obtain ⟨hn1, hn2, hn3, hd1, hd2, hd3, hc⟩ := hE
  have hge : 256 ≤ headerSizeN v := headerSizeN_ge v
  have hA : headerSizeN v ≤ filesEnd (headerSizeN v) l1 := filesEnd_ge _ _
  have hndlen : nd.length ≤ 65534 := by omega
  have hmod : nd.length % 65536 = nd.length := Nat.mod_eq_of_lt (by omega)
  have h16 : (mkNameField e.name).length = 16 := length_mkNameField hn2
  have h24 : (mkHdrBytes (mkNameField e.name) e.data.length (zcrc32 nd)
      (if l2.isEmpty then 0 else
        filesEnd (headerSizeN v) l1 + 24 + e.data.length)).length = 24 :=
    length_mkHdrBytes h16 _ _ _
  have hlen1 : (writeBytes img (filesEnd (headerSizeN v) l1 + 24) nd).length =
      img.length := length_writeBytes (by omega)
  have hlen2 : (writeBytes (writeBytes img (filesEnd (headerSizeN v) l1 + 24) nd)
      (filesEnd (headerSizeN v) l1)
      (mkHdrBytes (mkNameField e.name) e.data.length (zcrc32 nd)
        (if l2.isEmpty then 0 else
          filesEnd (headerSizeN v) l1 + 24 + e.data.length))).length = img.length := by
    rw [length_writeBytes (by rw [h24, hlen1]; omega), hlen1]
  refine ⟨writeBytes (writeBytes img (filesEnd (headerSizeN v) l1 + 24) nd)
    (filesEnd (headerSizeN v) l1)
    (mkHdrBytes (mkNameField e.name) e.data.length (zcrc32 nd)
      (if l2.isEmpty then 0 else
        filesEnd (headerSizeN v) l1 + 24 + e.data.length)), ?_, ?_⟩
  · unfold EEPROM_WriteFile
    rw [if_neg (by have := hfn.2.1; omega),
      if_neg (by intro hzz; exact hnd0 (List.eq_nil_of_length_eq_zero hzz))]
    simp only [hff, hmod]
    rw [if_neg (by omega), List.take_length]
    have hw1 : eeprom_write img nd (filesEnd (headerSizeN v) l1 + 24) =
        some (writeBytes img (filesEnd (headerSizeN v) l1 + 24) nd) :=
      eeprom_write_ok (by omega)
    simp only [hw1]
    have hser : serHdr ⟨mkNameField e.name, e.data.length, zcrc32 nd,
        if l2.isEmpty then 0 else
          filesEnd (headerSizeN v) l1 + 24 + e.data.length⟩ =
        mkHdrBytes (mkNameField e.name) e.data.length (zcrc32 nd)
          (if l2.isEmpty then 0 else
            filesEnd (headerSizeN v) l1 + 24 + e.data.length) :=
      serHdr_mk h16 _ _ _
    have hw2 : eeprom_write (writeBytes img (filesEnd (headerSizeN v) l1 + 24) nd)
        (mkHdrBytes (mkNameField e.name) e.data.length (zcrc32 nd)
          (if l2.isEmpty then 0 else
            filesEnd (headerSizeN v) l1 + 24 + e.data.length))
        (filesEnd (headerSizeN v) l1) =
        some (writeBytes (writeBytes img (filesEnd (headerSizeN v) l1 + 24) nd)
          (filesEnd (headerSizeN v) l1)
          (mkHdrBytes (mkNameField e.name) e.data.length (zcrc32 nd)
            (if l2.isEmpty then 0 else
              filesEnd (headerSizeN v) l1 + 24 + e.data.length))) :=
      eeprom_write_ok (by rw [h24, hlen1]; omega)
    simp only [hser, hw2, Option.getD_some]
  have hbef : ∀ a n, a + n ≤ filesEnd (headerSizeN v) l1 →
      readBytes (writeBytes (writeBytes img (filesEnd (headerSizeN v) l1 + 24) nd)
        (filesEnd (headerSizeN v) l1)
        (mkHdrBytes (mkNameField e.name) e.data.length (zcrc32 nd)
          (if l2.isEmpty then 0 else
            filesEnd (headerSizeN v) l1 + 24 + e.data.length))) a n =
      readBytes img a n := by
    intro a n ha
    rw [readBytes_writeBytes_before ha (by rw [hlen1]; omega),
      readBytes_writeBytes_before (by omega) (by omega)]
  have haft : ∀ a n, filesEnd (headerSizeN v) l1 + 24 + e.data.length ≤ a →
      readBytes (writeBytes (writeBytes img (filesEnd (headerSizeN v) l1 + 24) nd)
        (filesEnd (headerSizeN v) l1)
        (mkHdrBytes (mkNameField e.name) e.data.length (zcrc32 nd)
          (if l2.isEmpty then 0 else
            filesEnd (headerSizeN v) l1 + 24 + e.data.length))) a n =
      readBytes img a n := by
    intro a n ha
    rw [readBytes_writeBytes_after (by rw [h24]; omega) (by rw [h24, hlen1]; omega),
      readBytes_writeBytes_after (by omega) (by omega)]
  have hhdr2 : readBytes (writeBytes (writeBytes img
      (filesEnd (headerSizeN v) l1 + 24) nd) (filesEnd (headerSizeN v) l1)
      (mkHdrBytes (mkNameField e.name) e.data.length (zcrc32 nd)
        (if l2.isEmpty then 0 else
          filesEnd (headerSizeN v) l1 + 24 + e.data.length)))
      (filesEnd (headerSizeN v) l1) 24 =
      mkHdrBytes (mkNameField e.name) e.data.length (zcrc32 nd)
        (if l2.isEmpty then 0 else
          filesEnd (headerSizeN v) l1 + 24 + e.data.length) := by
    have hx := @readBytes_writeBytes_self
      (writeBytes img (filesEnd (headerSizeN v) l1 + 24) nd)
      (mkHdrBytes (mkNameField e.name) e.data.length (zcrc32 nd)
        (if l2.isEmpty then 0 else
          filesEnd (headerSizeN v) l1 + 24 + e.data.length))
      (filesEnd (headerSizeN v) l1) (by rw [h24, hlen1]; omega)
    rwa [h24] at hx
  have hdata2 : readBytes (writeBytes (writeBytes img
      (filesEnd (headerSizeN v) l1 + 24) nd) (filesEnd (headerSizeN v) l1)
      (mkHdrBytes (mkNameField e.name) e.data.length (zcrc32 nd)
        (if l2.isEmpty then 0 else
          filesEnd (headerSizeN v) l1 + 24 + e.data.length)))
      (filesEnd (headerSizeN v) l1 + 24) nd.length = nd := by
    rw [readBytes_writeBytes_after (by rw [h24]) (by rw [h24, hlen1]; omega)]
    exact @readBytes_writeBytes_self img nd (filesEnd (headerSizeN v) l1 + 24)
      (by omega)
  have hE2 : EntryOK ⟨e.name, nd, zcrc32 nd⟩ := by
    refine ⟨hn1, hn2, hn3, ?_, hndlen, hndb, zcrc32_lt nd⟩
    cases nd with
    | nil => exact absurd rfl hnd0
    | cons a t => simp
  have hchain2 : chainOK (writeBytes (writeBytes img
      (filesEnd (headerSizeN v) l1 + 24) nd) (filesEnd (headerSizeN v) l1)
      (mkHdrBytes (mkNameField e.name) e.data.length (zcrc32 nd)
        (if l2.isEmpty then 0 else
          filesEnd (headerSizeN v) l1 + 24 + e.data.length)))
      (headerSizeN v) (l1 ++ (⟨e.name, nd, zcrc32 nd⟩ : Entry) :: l2) := by
    apply chainOK_replace hlen2 hsize hE2 l1 l2 (headerSizeN v) hch hbef ?_ ?_ haft
    · rw [hhdr2]
      show mkHdrBytes (mkNameField e.name) e.data.length (zcrc32 nd) _ =
        mkHdrBytes (mkNameField e.name) nd.length (zcrc32 nd) _
      rw [hsize]
    · exact hdata2
  have hfeq : filesEnd (headerSizeN v) (l1 ++ (⟨e.name, nd, zcrc32 nd⟩ : Entry) :: l2) =
      filesEnd (headerSizeN v) (l1 ++ e :: l2) := by
    simp [filesEnd, entrySpan, hsize]
  have hFge : filesEnd (headerSizeN v) l1 + 24 + e.data.length ≤
      filesEnd (headerSizeN v) (l1 ++ e :: l2) := by
    rw [filesEnd_append, filesEnd_cons]
    exact filesEnd_ge _ _
  have himg2 : goodImage (writeBytes (writeBytes img
      (filesEnd (headerSizeN v) l1 + 24) nd) (filesEnd (headerSizeN v) l1)
      (mkHdrBytes (mkNameField e.name) e.data.length (zcrc32 nd)
        (if l2.isEmpty then 0 else
          filesEnd (headerSizeN v) l1 + 24 + e.data.length)))
      v (l1 ++ (⟨e.name, nd, zcrc32 nd⟩ : Entry) :: l2) := by
    refine ⟨hv, ?_, ?_, by omega, by omega, ?_, hchain2, ?_, ?_, ?_⟩
    · rw [hbef 0 8 (by omega)]
      exact hmag
    · rw [byteAt_writeBytes_before (by omega) (by rw [hlen1]; omega),
        byteAt_writeBytes_before (by omega) (by omega)]
      exact hver
    · intro g hg
      rcases List.mem_append.1 hg with hg1 | hg2
      · exact hEs g (by simp [hg1])
      · rcases List.mem_cons.1 hg2 with rfl | hg3
        · exact hE2
        · exact hEs g (by simp [hg3])
    · rw [hfeq, hlen2]
      rw [drop_writeBytes_after (by rw [h24]; omega) (by rw [h24, hlen1]; omega),
        drop_writeBytes_after (by omega) (by omega)]
      exact htail
    · have hsame : (l1 ++ (⟨e.name, nd, zcrc32 nd⟩ : Entry) :: l2).map Entry.name =
          (l1 ++ e :: l2).map Entry.name := by simp
      rw [hsame]
      exact hnd
    · exact writeBytes_bytes_lt (writeBytes_bytes_lt hbytes hndb)
        (mkHdrBytes_bytes_lt (mkNameField_bytes_lt hn3) _ _ _)
  refine ⟨himg2, ?_, hlen2, hbef, haft⟩
  intro g hg
  have hgE : EntryOK g := hEs g hg
  have hgv : ValidCName g.name := ⟨hgE.1, hgE.2.1, hgE.2.2.1⟩
  rw [findAddr_good himg2 hgv, findAddr_good himg hgv]
  exact (findSpec_addr_congr (@forall₂_replace e ⟨e.name, nd, zcrc32 nd⟩
    ⟨rfl, hsize.symm⟩ l1 l2) (headerSizeN v)).symm

theorem C9_witness :
    ∃ img2, EEPROM_WriteFile imgA [97] [9, 9] = some ((2 : Int), img2) ∧
      goodImage img2 2 [⟨[97], [9, 9], zcrc32 [9, 9]⟩] := by
  obtain ⟨img2, he, hg, _⟩ := C9_writeSameSize imgA [97] [9, 9] 2 [] [] entA
    (by decide) (by decide) (by decide) (by decide) (by decide) (by simp)
  exact ⟨img2, he, hg⟩

theorem C8_witness :
    EEPROM_ReadFile imgA [97] 10 = some ((2 : Int), [7, 8]) := by
  have h := (C8_readFile imgA [97] 2 [entA] 10 (by decide) (by decide) (by decide)).2
    [] entA [] (by simp) (by decide)
  exact (h.2 (by decide)).1

lemma filesEnd_nil (addr : Nat) : filesEnd addr ([] : List Entry) = addr := by
  simp [filesEnd]

lemma entryHdrBytes_nil (addr : Nat) (e : Entry) :
    entryHdrBytes addr e [] = mkHdrBytes (mkNameField e.name) e.data.length e.crc 0 := rfl

/-- The success path of `EEPROM_ReadFile` on a valid image: the record named
`fn` exists and fits the caller's buffer, so the data bytes come back with
the `int16_t`-converted `dataSize`. -/
lemma readFile_success {img fn : List Nat} {v : Nat} {es l1 l2 : List Entry} {e : Entry}
    (himg : goodImage img v es) (hfn : ValidCName fn) (hsplit : es = l1 ++ e :: l2)
    (hname : e.name = fn) (bufSize : Nat) (hbs : 0 < bufSize)
    (hfits : e.data.length ≤ bufSize) :
    EEPROM_ReadFile img fn bufSize = some (toInt16 e.data.length, e.data) := by
  obtain ⟨hff, hhdr, hdata, hbound, hE⟩ := findFile_found himg hfn hsplit hname
  unfold EEPROM_ReadFile
  rw [if_neg (by have := hfn.2.1; omega), if_neg (by omega)]
  simp only [hff]
  rw [if_neg (by simpa using (by omega : ¬ e.data.length > bufSize))]
  rw [eeprom_read_ok (by simpa using hbound)]
  simp only [hdata]
  rw [if_pos (by simpa using hE.2.2.2.1)]

/-- Claim C8 counterexample: `EEPROM_ReadFile` is declared `int16_t`, so on
a valid image holding a 33000-byte file and a big-enough caller buffer it
returns `(int16_t) 33000 = -32536`, not `dataSize` — the claim's "return
dataSize" fails for every `dataSize > INT16_MAX`. -/
theorem C8_cex :
    goodImage imgBig 2 [entBig] ∧ ValidCName [97] ∧ entBig.data.length = 33000 ∧
      EEPROM_ReadFile imgBig [97] 40000 = some (-32536, dataBig) ∧
      ((-32536 : Int) ≠ ((33000 : Nat) : Int)) := by
  have hPlen : hdrP.length = 256 := by decide
  have h16 : (mkNameField [97]).length = 16 := by decide
  have hHlen : (mkHdrBytes (mkNameField [97]) 33000 12345 0).length = 24 :=
    length_mkHdrBytes h16 _ _ _
  have hDlen : dataBig.length = 33000 := List.length_replicate 33000 7
  have hed : entBig.data.length = 33000 := hDlen
  have hnm : entBig.name = [97] := rfl
  have hcrc : entBig.crc = 12345 := rfl
  have hPH : (hdrP ++ mkHdrBytes (mkNameField [97]) 33000 12345 0).length =
      280 := by
    rw [List.length_append, hPlen, hHlen]
  have hIlen : imgBig.length = 33280 := by
    unfold imgBig
    rw [List.length_append, hPH, hDlen]
  have hdrop256 : imgBig.drop 256 =
      mkHdrBytes (mkNameField [97]) 33000 12345 0 ++ dataBig := by
    unfold imgBig
    rw [List.append_assoc, show (256 : Nat) = hdrP.length from hPlen.symm,
      List.drop_left]
  have hdrop280 : imgBig.drop 280 = dataBig := by
    unfold imgBig
    rw [show (280 : Nat) =
        (hdrP ++ mkHdrBytes (mkNameField [97]) 33000 12345 0).length from
      hPH.symm, List.drop_left]
  have hrec : readBytes imgBig 256 24 =
      mkHdrBytes (mkNameField [97]) 33000 12345 0 := by
    unfold readBytes
    rw [hdrop256, show (24 : Nat) =
        (mkHdrBytes (mkNameField [97]) 33000 12345 0).length from
      hHlen.symm, List.take_left]
  have hdataread : readBytes imgBig 280 33000 = dataBig := by
    unfold readBytes
    rw [hdrop280, ← hDlen, List.take_length]
  have hmag : readBytes imgBig 0 8 = magicBytes := by
    unfold imgBig
    rw [readBytes_append (by rw [hPH]; omega), readBytes_append (by rw [hPlen]; omega)]
    decide
  have hverb : byteAt imgBig 8 = 2 := by
    unfold imgBig
    rw [byteAt_append (by rw [hPH]; omega), byteAt_append (by rw [hPlen]; omega)]
    decide
  have hEb : EntryOK entBig := by
    refine ⟨by decide, by decide, by decide, ?_, ?_, ?_, ?_⟩
    · rw [hed]
      omega
    · rw [hed]
      omega
    · intro b hb
      have hb2 : b ∈ List.replicate 33000 7 := hb
      rw [List.eq_of_mem_replicate hb2]
      omega
    · rw [hcrc]
      omega
  have hspan : filesEnd 256 [entBig] = 33280 := by
    rw [filesEnd_cons, filesEnd_nil, hed]
  have hchain : chainOK imgBig 256 [entBig] := by
    refine ⟨hEb, ?_, ?_, ?_, trivial⟩
    · rw [hrec, entryHdrBytes_nil, hnm, hed, hcrc]
    · show readBytes imgBig (256 + 24) entBig.data.length = entBig.data
      rw [hed, show (256 + 24 : Nat) = 280 from rfl]
      exact hdataread
    · omega
  have hgood : goodImage imgBig 2 [entBig] := by
    refine ⟨by norm_num, hmag, hverb, by rw [hIlen]; decide, by rw [hIlen]; decide,
      ?_, hchain, ?_, by simp, ?_⟩
    · intro g hg
      simp at hg
      rw [hg]
      exact hEb
    · have hfe2 : filesEnd (headerSizeN 2) [entBig] = 33280 := hspan
      rw [hfe2, hIlen, List.drop_eq_nil_of_le (by rw [hIlen])]
      simp
    · intro b hb
      have hb0 : b ∈ (hdrP ++ mkHdrBytes (mkNameField [97]) 33000 12345 0)
          ++ dataBig := hb
      rcases List.mem_append.1 hb0 with hb1 | hbD
      · rcases List.mem_append.1 hb1 with hbP | hbH
        · have hall : ∀ x ∈ hdrP, x < 256 := by decide
          exact hall b hbP
        · exact mkHdrBytes_bytes_lt (mkNameField_bytes_lt (by decide)) _ _ _ b hbH
      · have hb2 : b ∈ List.replicate 33000 7 := hbD
        rw [List.eq_of_mem_replicate hb2]
        omega
  have hread := @readFile_success imgBig [97] 2 [entBig] [] [] entBig hgood
    (by decide) rfl rfl 40000 (by omega) (by rw [hed]; omega)
  refine ⟨hgood, by decide, hed, ?_, by decide⟩
  rw [hread, hed, show entBig.data = dataBig from rfl]
  have ht16 : toInt16 33000 = -32536 := by decide
  rw [ht16]

end Jeefs
